import Mathlib

/-!
Verification development for the eidocell image-analysis backend
(`src/backend/processor.py`, `src/backend/segmentation.py`,
`src/backend/data_manager.py`, `src/backend/objects/{cluster,sample}.py`).

External libraries (cv2, scipy, numpy, sklearn, faiss, onnxruntime) enter the
embedding as explicit oracle parameters or as definitions modelled from their
documented contracts; the repository's own control flow and arithmetic are
translated directly.  Machine floats are modelled as exact rationals: every
float value is a rational, and the claims under study are structural
(guards, key sets, lengths, set membership), not about rounding.
-/

namespace Eidocell

/-! ## Generic association-table helpers (model of Python dict operations) -/

/-- First-match lookup in an association list (Python `dict.get`). -/
def lookupA {κ α : Type} [DecidableEq κ] (k : κ) : List (κ × α) → Option α
  | [] => none
  | (k', v) :: rest => if k' = k then some v else lookupA k rest

/-- Apply `f` to the value stored under key `k` (in-place mutation of the
object held in a Python dict). -/
def updateA {κ α : Type} [DecidableEq κ] (k : κ) (f : α → α) :
    List (κ × α) → List (κ × α)
  | [] => []
  | (k', v) :: rest => (k', if k' = k then f v else v) :: updateA k f rest

/-- Remove the entry under key `k` (Python `dict.pop`). -/
def removeA {κ α : Type} [DecidableEq κ] (k : κ) :
    List (κ × α) → List (κ × α)
  | [] => []
  | (k', v) :: rest =>
    if k' = k then removeA k rest else (k', v) :: removeA k rest

/-- Apply `f` to every entry whose key lies in `keys`, leaving the rest alone
(the aggregate effect of a Python loop mutating one object per key). -/
def mapMembers {α : Type} (keys : Finset String) (f : α → α)
    (l : List (String × α)) : List (String × α) :=
  l.map (fun p => (p.1, if p.1 ∈ keys then f p.2 else p.2))

/-- Python `str.lower()` on the (ASCII) model names, character by character;
`String.toLower` itself is definitionally opaque to the kernel. -/
def pyLower (s : String) : String := ⟨s.data.map Char.toLower⟩

/-- Substring test on character lists: Python `needle in hay`. -/
def hasSubstr : List Char → List Char → Bool
  | [], needle => needle.isEmpty
  | c :: t, needle => needle == (c :: t).take needle.length || hasSubstr t needle

/-! ## Feature extractor (`backend/processor.py`) -/

/-- Registry of model weight files, from `Processor._get_model_path`. -/
def model_filename (modelName : String) : Option String :=
  match pyLower modelName with
  | "dinov2s" => some "dinov2_small.onnx"
  | "dinov2b" => some "dinov2_base.onnx"
  | "mobilenetv3l" => some "mobilenetv3_large_extractor.onnx"
  | "mobilenetv3s" => some "mobilenetv3_small_extractor.onnx"
  | "hiera_huge" => some "hiera_huge.onnx"
  | _ => none

/-- Registry of output dimensions, from `Processor._get_model_dimension`. -/
def model_dimension (modelName : String) : Option Nat :=
  match pyLower modelName with
  | "dinov2s" => some 384
  | "dinov2b" => some 384
  | "hiera_huge" => some 384
  | "mobilenetv3s" => some 1024
  | "mobilenetv3l" => some 1280
  | _ => none

/-- The five model names supported by both registries. -/
def registeredModels : List String :=
  ["mobilenetv3s", "mobilenetv3l", "dinov2s", "dinov2b", "hiera_huge"]

/-- Resize target chosen in `Processor.extract_features`:
`(256, 256)` iff the string `"mobilevit"` occurs in the model name,
else `(224, 224)`. -/
def target_size (modelName : String) : Nat × Nat :=
  if hasSubstr modelName.data "mobilevit".data then (256, 256) else (224, 224)

/-- Decoded 3-channel image: rows of RGB pixels (float values as rationals). -/
abbrev Img := List (List (ℚ × ℚ × ℚ))

/-- Channels-first layout with pixel scaling, from
`image.transpose(2, 0, 1).astype(np.float32) / 255.0`. -/
def toCHW (img : Img) : List (List (List ℚ)) :=
  [img.map (fun row => row.map (fun p => p.1 / 255)),
   img.map (fun row => row.map (fun p => p.2.1 / 255)),
   img.map (fun row => row.map (fun p => p.2.2 / 255))]

/-- Oracle for `cv2.resize` (external library). -/
structure ResizeOracle where
  resize : Img → Nat × Nat → Img

/-- Modelled from the spec: the ONNX weight files under `backend/resources`
are not part of the source tree, so the inference session is abstracted.
Spec §4.1: the forward pass output, flattened, is a 1-D vector of the model's
declared dimension; `run_total` records that the output array (a possibly
nested float array) holds exactly `featureDim` elements. -/
structure OrtSession where
  featureDim : Nat
  run : List (List (List (List ℚ))) → List (List ℚ)
  run_total : ∀ x, ((run x).map List.length).sum = featureDim

/-- Embedding of `Processor.extract_features` after a successful image load:
resize to the model's target size, scale and reorder channels, add a batch
dimension, run the session, and flatten (`reshape(-1)`). -/
def extract_features (rz : ResizeOracle) (sess : OrtSession)
    (modelName : String) (img : Img) : List ℚ :=
  let resized := rz.resize img (target_size modelName)
  let batched := [toCHW resized]
  (sess.run batched).flatten

/-! ## Dimensionality reducer (`Processor.reduce_dimensions`) -/

/-- Columns of a row-major matrix; numpy arrays are rectangular, so the
column count is read off the first row. -/
def columnsOf (X : List (List ℚ)) : List (List ℚ) :=
  match X with
  | [] => []
  | r0 :: _ =>
    (List.range r0.length).map (fun j => X.filterMap (fun row => row.get? j))

/-- Column means of a row-major matrix (`X.mean(axis=0)`). -/
def colMeans (X : List (List ℚ)) : List ℚ :=
  (columnsOf X).map (fun col => col.sum / (col.length : ℚ))

/-- Subtract the column means from every row (PCA centering). -/
def centered (X : List (List ℚ)) : List (List ℚ) :=
  X.map (fun row => List.zipWith (fun a b => a - b) row (colMeans X))

/-- Dot product of two float vectors. -/
def dotQ (a b : List ℚ) : ℚ :=
  (List.zipWith (fun x y => x * y) a b).sum

/-- Row-major matrix product: row i of the result is row i of `A` dotted with
each column of `B`. -/
def matMul (A B : List (List ℚ)) : List (List ℚ) :=
  A.map (fun row => (columnsOf B).map (fun col => dotQ row col))

/-- Modelled from the documented behaviour of `sklearn.decomposition.PCA`
`fit_transform` (external library): the input is centered column-wise and
projected onto the fitted components, which enter as the abstract parameter
`W` (one column per retained component). -/
def pcaFitTransform (W : List (List ℚ)) (X : List (List ℚ)) : List (List ℚ) :=
  matMul (centered X) W

/-- Embedding of `Processor.reduce_dimensions`: the source unconditionally
constructs a `PCA` reducer and returns `fit_transform(features)` — there is
no branch on the shape of `features`. -/
def reduce_dimensions (W : List (List ℚ)) (features : List (List ℚ)) :
    List (List ℚ) :=
  pcaFitTransform W features

/-! ## Cluster engine (`Processor.cluster_images` and callers) -/

/-- Oracle for the centroids/labels computed by `faiss.Kmeans` (external
library): `labels` yields one cluster label per input row, recorded by the
`labels_len` contract. -/
structure KmeansOracle where
  labels : List (List ℚ) → Nat → List Nat
  labels_len : ∀ fs k, (labels fs k).length = fs.length

/-- Modelled from the documented behaviour of `faiss.Kmeans.train` (external
library): training raises when the number of training points is below the
number of clusters (`Clustering::train` checks `nx >= k`), and otherwise
produces one label per row. -/
def faiss_kmeans_train (o : KmeansOracle) (features : List (List ℚ))
    (k : Nat) : Except String (List Nat) :=
  if features.length < k then
    .error "Number of training points should be at least as large as number of clusters"
  else
    .ok (o.labels features k)

/-- Embedding of `Processor.cluster_images` for `find_k_elbow = False` (the
only mode the claims exercise): train faiss k-means on the feature matrix and
return the per-row labels; the iteration and restart counts only influence
the oracle's choice of labels. -/
def cluster_images (o : KmeansOracle) (features : List (List ℚ))
    (nClusters : Nat) : Except String (List Nat) :=
  faiss_kmeans_train o features nClusters

/-! ## Segmentation engine: `SegmentationModel.predict_mask_otsu`

The grayscale conversion, Gaussian blur and Otsu threshold are cv2 calls and
the connected-component labelling is `scipy.ndimage.label` (all external);
the labelled grid enters the embedding as the function `labeled`, assigning
to each pixel its component index (`0` = background, `1..num` = components).
The embedding covers the repository's own component-selection loop and the
final inversion. -/

/-- Pixel count of component `c` in the `h × w` grid
(`np.sum(component_mask)`). -/
def compSize (labeled : Nat → Nat → Nat) (h w c : Nat) : Nat :=
  ((List.range h).map (fun y =>
    ((List.range w).filter (fun x => labeled y x == c)).length)).sum

/-- Sum of the row indices of component `c`'s pixels (numerator of the first
`ndimage.center_of_mass` coordinate). -/
def compSumY (labeled : Nat → Nat → Nat) (h w c : Nat) : Nat :=
  ((List.range h).map (fun y =>
    y * ((List.range w).filter (fun x => labeled y x == c)).length)).sum

/-- Sum of the column indices of component `c`'s pixels (numerator of the
second `ndimage.center_of_mass` coordinate). -/
def compSumX (labeled : Nat → Nat → Nat) (h w c : Nat) : Nat :=
  ((List.range w).map (fun x =>
    x * ((List.range h).filter (fun y => labeled y x == c)).length)).sum

/-- First centroid coordinate of component `c`
(`ndimage.center_of_mass(component_mask)[0]`). -/
def centroidY (labeled : Nat → Nat → Nat) (h w c : Nat) : ℚ :=
  (compSumY labeled h w c : ℚ) / (compSize labeled h w c : ℚ)

/-- Second centroid coordinate of component `c`. -/
def centroidX (labeled : Nat → Nat → Nat) (h w c : Nat) : ℚ :=
  (compSumX labeled h w c : ℚ) / (compSize labeled h w c : ℚ)

/-- Centroid-distance test of `predict_mask_otsu`, in squared form.  The
source compares `sqrt((c0 - center_y)**2 + (c1 - center_x)**2)` with
`max_distance_ratio * sqrt(height**2 + width**2)`; for a nonnegative ratio
both sides are nonnegative, so squaring both sides is an equivalent test that
stays inside ℚ and is decidable.  The equivalence with the square-root form
is proved in `distOk_iff_sqrt`. -/
def distOk (labeled : Nat → Nat → Nat) (h w c : Nat) (ratio : ℚ) : Prop :=
  (centroidY labeled h w c - (h : ℚ) / 2) ^ 2 +
      (centroidX labeled h w c - (w : ℚ) / 2) ^ 2 ≤
    ratio ^ 2 * ((h : ℚ) ^ 2 + (w : ℚ) ^ 2)

instance (labeled : Nat → Nat → Nat) (h w c : Nat) (ratio : ℚ) :
    Decidable (distOk labeled h w c ratio) := by
  unfold distOk; infer_instance

/-- Loop-body condition under which component `c` is painted into
`mask_selected`: the component is nonempty (`np.any`), is not skipped as too
small (`component_size < min_component_size: continue`), and its centroid
passes the distance test. -/
def keepComponent (labeled : Nat → Nat → Nat) (h w : Nat) (minSize : Nat)
    (ratio : ℚ) (c : Nat) : Prop :=
  0 < compSize labeled h w c ∧ minSize ≤ compSize labeled h w c ∧
    distOk labeled h w c ratio

instance (labeled : Nat → Nat → Nat) (h w : Nat) (minSize : Nat) (ratio : ℚ)
    (c : Nat) : Decidable (keepComponent labeled h w minSize ratio c) := by
  unfold keepComponent; infer_instance

/-- One iteration of the selection loop: paint component `c` with value 1
(`mask_selected[component_mask] = 1`) when it is kept. -/
def selectStep (labeled : Nat → Nat → Nat) (h w : Nat) (minSize : Nat)
    (ratio : ℚ) (m : Nat → Nat → Nat) (c : Nat) : Nat → Nat → Nat :=
  if keepComponent labeled h w minSize ratio c then
    fun y x => if labeled y x = c then 1 else m y x
  else m

/-- The `mask_selected` grid after the loop over components `1..num`. -/
def mask_selected (labeled : Nat → Nat → Nat) (h w num : Nat) (minSize : Nat)
    (ratio : ℚ) : Nat → Nat → Nat :=
  (List.range' 1 num).foldl (selectStep labeled h w minSize ratio)
    (fun _ _ => 0)

/-- Final result of `predict_mask_otsu`: the inversion
`mask_selected = 1 - mask_selected`. -/
def predict_mask_otsu (labeled : Nat → Nat → Nat) (h w num : Nat)
    (minSize : Nat) (ratio : ℚ) : Nat → Nat → Nat :=
  fun y x => 1 - mask_selected labeled h w num minSize ratio y x

/-! ## Morphometry extractor: `SegmentationModel.get_object_properties`

Contour discovery (`cv2.findContours`) and the geometric primitives
(`cv2.contourArea`, `cv2.arcLength`, `cv2.fitEllipse`, `cv2.boundingRect`,
`scipy.spatial.ConvexHull`, masked intensity statistics, `np.sqrt`, `np.pi`)
are external; they enter as the oracle below.  The repository's own guard
structure, filtering, and dictionary assembly are translated directly. -/

/-- A contour: its boundary points, as produced by `cv2.findContours` and
reshaped to an N×2 array. -/
abbrev Contour := List (ℚ × ℚ)

/-- Oracle bundling the external cv2/scipy/numpy calls made by
`get_object_properties` on one (image, mask) pair.  `fitEllipse` returns
`((x, y), (major, minor), angle)`, `boundingRect` returns `(x, y, w, h)`,
`hullArea` is `ConvexHull(..).volume`, `hullPoints` the points at
`hull.vertices`, and `sqrtF`/`piF` stand for `np.sqrt`/`np.pi` (float values,
hence rationals). -/
structure CVOracle where
  contourArea : Contour → ℚ
  arcLength : Contour → ℚ
  fitEllipse : List (ℚ × ℚ) → (ℚ × ℚ) × (ℚ × ℚ) × ℚ
  boundingRect : List (ℚ × ℚ) → ℚ × ℚ × ℚ × ℚ
  hullArea : List (ℚ × ℚ) → ℚ
  hullPoints : List (ℚ × ℚ) → List (ℚ × ℚ)
  meanIntensity : ℚ
  stdIntensity : ℚ
  sqrtF : ℚ → ℚ
  piF : ℚ

/-- Embedding of `SegmentationModel.get_valid_contours`: keep contours whose
area strictly exceeds `min_area_ratio * image_size`. -/
def get_valid_contours (o : CVOracle) (contours : List Contour)
    (imageSize minAreaRatio : ℚ) : List Contour :=
  contours.filter (fun c => minAreaRatio * imageSize < o.contourArea c)

/-- The dictionary returned when no valid contour remains. -/
def zero_properties : List (String × ℚ) :=
  [("area", 0), ("perimeter", 0), ("eccentricity", 0), ("solidity", 0),
   ("aspect_ratio", 0), ("circularity", 0), ("major_axis_length", 0),
   ("minor_axis_length", 0), ("mean_intensity", 0), ("std_intensity", 0),
   ("compactness", 0), ("convexity", 0), ("curl", 0), ("volume", 0)]

/-- Cumulative contour area (`np.sum([cv2.contourArea(c) ...])`). -/
def areaOf (o : CVOracle) (valid : List Contour) : ℚ :=
  (valid.map o.contourArea).sum

/-- Cumulative perimeter (`np.sum([cv2.arcLength(c, True) ...])`). -/
def perimeterOf (o : CVOracle) (valid : List Contour) : ℚ :=
  (valid.map o.arcLength).sum

/-- Concatenation of all contour points (`np.concatenate([...])`). -/
def allPointsOf (valid : List Contour) : List (ℚ × ℚ) :=
  valid.flatten

/-- Solidity: `area / hull_area if hull_area != 0 else 0`. -/
def solidityOf (o : CVOracle) (valid : List Contour) : ℚ :=
  let hullA := o.hullArea (allPointsOf valid)
  if hullA ≠ 0 then areaOf o valid / hullA else 0

/-- Aspect ratio of the bounding rectangle:
`float(w) / h if h != 0 else 0`. -/
def aspectRatioOf (o : CVOracle) (valid : List Contour) : ℚ :=
  let r := o.boundingRect (allPointsOf valid)
  if r.2.2.2 ≠ 0 then r.2.2.1 / r.2.2.2 else 0

/-- Circularity: `4 * pi * (area / perimeter**2) if perimeter != 0 else 0`. -/
def circularityOf (o : CVOracle) (valid : List Contour) : ℚ :=
  if perimeterOf o valid ≠ 0 then
    4 * o.piF * (areaOf o valid / perimeterOf o valid ^ 2)
  else 0

/-- Compactness: `perimeter**2 / (4 * pi * area) if area != 0 else 0`. -/
def compactnessOf (o : CVOracle) (valid : List Contour) : ℚ :=
  if areaOf o valid ≠ 0 then
    perimeterOf o valid ^ 2 / (4 * o.piF * areaOf o valid)
  else 0

/-- Convexity: guarded by `hull.points.size > 0 and len(hull.points) >= 2`
(`hull.points` is the input point array, so the conjuncts say the point list
is nonempty and has at least two points), then
`perimeter / hull_perimeter if hull_perimeter != 0 else 0`. -/
def convexityOf (o : CVOracle) (valid : List Contour) : ℚ :=
  if 0 < (allPointsOf valid).length ∧ 2 ≤ (allPointsOf valid).length then
    let hullPer := o.arcLength (o.hullPoints (allPointsOf valid))
    if hullPer ≠ 0 then perimeterOf o valid / hullPer else 0
  else 0

/-- Curl: `perimeter / (2 * sqrt(pi * area)) if area != 0 else 0`. -/
def curlOf (o : CVOracle) (valid : List Contour) : ℚ :=
  if areaOf o valid ≠ 0 then
    perimeterOf o valid / (2 * o.sqrtF (o.piF * areaOf o valid))
  else 0

/-- Approximate spherical volume from `diameter = perimeter / pi`. -/
def volumeOf (o : CVOracle) (valid : List Contour) : ℚ :=
  (4 / 3) * o.piF * (perimeterOf o valid / o.piF / 2) ^ 3

/-- The assembled 14-key properties dictionary, in source order; the
eccentricity and axis lengths depend on the `fitEllipse` branch and are
passed in. -/
def propsDict (o : CVOracle) (valid : List Contour) (ecc major minor : ℚ) :
    List (String × ℚ) :=
  [("area", areaOf o valid), ("perimeter", perimeterOf o valid),
   ("eccentricity", ecc), ("solidity", solidityOf o valid),
   ("aspect_ratio", aspectRatioOf o valid),
   ("circularity", circularityOf o valid),
   ("major_axis_length", major), ("minor_axis_length", minor),
   ("mean_intensity", o.meanIntensity), ("std_intensity", o.stdIntensity),
   ("compactness", compactnessOf o valid), ("convexity", convexityOf o valid),
   ("curl", curlOf o valid), ("volume", volumeOf o valid)]

/-- Embedding of `SegmentationModel.get_object_properties`.  The dimension
check raises `ValueError` when image and mask shapes differ.  With valid
contours and at least 5 points, the source computes
`np.sqrt(1 - (minor_axis_length / major_axis_length) ** 2)` where the two
axis lengths are Python floats from `cv2.fitEllipse`; a zero major axis
therefore raises `ZeroDivisionError` — this division carries no guard. -/
def get_object_properties (o : CVOracle) (imgH imgW maskH maskW : Nat)
    (contours : List Contour) (minAreaRatio : ℚ) :
    Except String (List (String × ℚ)) :=
  if (imgH, imgW) ≠ (maskH, maskW) then
    .error "Image and mask dimensions do not match."
  else
    let imageSize : ℚ := (imgH : ℚ) * (imgW : ℚ)
    let valid := get_valid_contours o contours imageSize minAreaRatio
    if valid.isEmpty then .ok zero_properties
    else
      let pts := allPointsOf valid
      if 5 ≤ pts.length then
        let e := o.fitEllipse pts
        let major := e.2.1.1
        let minor := e.2.1.2
        if major = 0 then .error "ZeroDivisionError: float division by zero"
        else .ok (propsDict o valid (o.sqrtF (1 - (minor / major) ^ 2)) major minor)
      else .ok (propsDict o valid 0 0 0)

/-! ## Cluster/sample tables (`backend/objects/{cluster,sample}.py` and the
cluster operations of `backend/data_manager.py`)

Python objects are mutable and aliased between the two `DataManager` dicts
and each other's back-references; the embedding keeps the two tables as
association lists keyed by object id and routes every mutation through
table updates, which is observationally the same single-threaded state. -/

/-- A `Cluster` object: its colour and the ids of its member samples
(`self.samples`, a Python set of `Sample` objects). -/
structure ClusterObj where
  color : String
  samples : Finset String
  deriving DecidableEq

/-- The cluster-related state of a `Sample` object (`self.cluster_ids`); the
remaining fields (path, features, class id, mask id) are untouched by every
operation modelled here. -/
structure SampleObj where
  cluster_ids : Finset String
  deriving DecidableEq

/-- The DataManager's object tables `self.clusters` and `self.samples`. -/
structure DM where
  clusters : List (String × ClusterObj)
  samples : List (String × SampleObj)
  deriving DecidableEq

/-- Effect of `Cluster.add_image` on the tables: the sample id joins the
cluster's member set and the cluster id joins the sample's `cluster_ids`. -/
def dmAddImage (st : DM) (cid sid : String) : DM :=
  { clusters := updateA cid
      (fun c => { c with samples := insert sid c.samples }) st.clusters,
    samples := updateA sid
      (fun s => { s with cluster_ids := insert cid s.cluster_ids }) st.samples }

/-- Effect of `Cluster.remove_image`: both references are discarded. -/
def dmRemoveImage (st : DM) (cid sid : String) : DM :=
  { clusters := updateA cid
      (fun c => { c with samples := c.samples.erase sid }) st.clusters,
    samples := updateA sid
      (fun s => { s with cluster_ids := s.cluster_ids.erase cid }) st.samples }

/-- `DataManager.create_cluster`, with the freshly drawn uuid and random
colour supplied as arguments. -/
def create_cluster (st : DM) (freshId color : String) : DM :=
  { st with clusters := (freshId, { color := color, samples := ∅ }) :: st.clusters }

/-- `DataManager.add_images_to_cluster`: a no-op when the cluster id is
unknown; otherwise each listed image that exists is added through
`Cluster.add_image`, and unknown image ids are skipped. -/
def add_images_to_cluster (st : DM) (imageIds : List String) (cid : String) : DM :=
  match lookupA cid st.clusters with
  | none => st
  | some _ =>
    imageIds.foldl (fun s iid =>
      match lookupA iid s.samples with
      | none => s
      | some _ => dmAddImage s cid iid) st

/-- `DataManager.remove_images_from_cluster`, analogously. -/
def remove_images_from_cluster (st : DM) (imageIds : List String) (cid : String) : DM :=
  match lookupA cid st.clusters with
  | none => st
  | some _ =>
    imageIds.foldl (fun s iid =>
      match lookupA iid s.samples with
      | none => s
      | some _ => dmRemoveImage s cid iid) st

/-- `DataManager.delete_cluster`: pop the cluster and, iterating over a copy
of `cluster.samples`, discard the cluster id from each member's
`cluster_ids`.  Each member key is touched exactly once, so the loop's
effect on the sample table is the pointwise `mapMembers`. -/
def delete_cluster (st : DM) (cid : String) : DM :=
  match lookupA cid st.clusters with
  | none => st
  | some c =>
    { clusters := removeA cid st.clusters,
      samples := mapMembers c.samples
        (fun s => { s with cluster_ids := s.cluster_ids.erase cid }) st.samples }

/-- `DataManager.merge_clusters`: with fewer than two ids nothing happens;
otherwise a new cluster is created, and each source cluster that exists has
its member ids added to the new cluster and is then deleted. -/
def merge_clusters (st : DM) (clusterIds : List String) (freshId color : String) : DM :=
  if clusterIds.length < 2 then st
  else
    let st1 := create_cluster st freshId color
    clusterIds.foldl (fun s cid =>
      match lookupA cid s.clusters with
      | none => s
      | some c =>
        delete_cluster (add_images_to_cluster s (c.samples.sort (· ≤ ·)) freshId) cid) st1

/-- Assignment loop of `DataManager.split_cluster` over the `(label, id)`
pairs: a label seen for the first time gets a cluster created for it
(`assoc` records the mapping), then the image, when present in the table, is
added to that label's cluster.  `fresh` supplies the uuids still to be drawn;
the source draws unboundedly many, and the theorems always supply enough, so
the exhaustion branch is never reached there. -/
def assign_fold (color : String) :
    DM → List (Nat × String) → List String → List (Nat × String) → DM
  | st, _, _, [] => st
  | st, assoc, fresh, (label, sid) :: rest =>
    match lookupA label assoc with
    | some fid =>
      match lookupA sid st.samples with
      | none => assign_fold color st assoc fresh rest
      | some _ => assign_fold color (dmAddImage st fid sid) assoc fresh rest
    | none =>
      match fresh with
      | [] => st
      | f :: fresh' =>
        let st1 := create_cluster st f color
        match lookupA sid st1.samples with
        | none => assign_fold color st1 ((label, f) :: assoc) fresh' rest
        | some _ =>
          assign_fold color (dmAddImage st1 f sid) ((label, f) :: assoc) fresh' rest

/-- `DataManager.split_cluster`.  Feature loading (`np.load` over
`self.features`) is the oracle `featureO` with `none` for a missing feature
file; `reduceO` abstracts `Processor.reduce_dimensions` (a PCA fit, which
preserves the row count) and `o` the faiss k-means labels.  On an exception
from the reduce/cluster step the source logs and returns. -/
def dm_split_cluster (o : KmeansOracle) (reduceO : List (List ℚ) → List (List ℚ))
    (featureO : String → Option (List ℚ)) (fresh : List String) (color : String)
    (st : DM) (cid : String) (nClusters : Nat) : DM :=
  match lookupA cid st.clusters with
  | none => st
  | some c =>
    let clusterImages := c.samples.sort (· ≤ ·)
    if clusterImages.length < nClusters then st
    else
      let withF := clusterImages.filterMap
        (fun sid => (featureO sid).map (fun f => (sid, f)))
      let imageIds := withF.map (fun p => p.1)
      let features := withF.map (fun p => p.2)
      if features.isEmpty then st
      else
        match cluster_images o (reduceO features) nClusters with
        | .error _ => st
        | .ok labels =>
          delete_cluster (assign_fold color st [] fresh (labels.zip imageIds)) cid

/-- `DataManager.perform_clustering`.  `featTable` is `self.features`
(image id → feature file), with `none` standing for an unreadable path.  The
reduce/cluster step runs inside `try/except`: on any exception the source
logs and returns, so the second component (an exception escaping to the
caller) is always `none`.  On success one cluster is created per distinct
label and every image is added to its label's cluster. -/
def dm_perform_clustering (o : KmeansOracle)
    (reduceO : List (List ℚ) → List (List ℚ)) (fresh : List String)
    (color : String) (st : DM) (featTable : List (String × Option (List ℚ)))
    (nClusters : Nat) : DM × Option String :=
  let withF := featTable.filterMap (fun p => p.2.map (fun f => (p.1, f)))
  if withF.isEmpty then (st, none)
  else
    match cluster_images o (reduceO (withF.map (fun p => p.2))) nClusters with
    | .error _ => (st, none)
    | .ok labels =>
      let assoc := labels.dedup.zip fresh
      let st1 := assoc.foldl (fun s p => create_cluster s p.2 color) st
      let st2 := (labels.zip (withF.map (fun p => p.1))).foldl (fun s p =>
        match lookupA p.1 assoc with
        | none => s
        | some fid =>
          match lookupA p.2 s.samples with
          | none => s
          | some _ => dmAddImage s fid p.2) st1
      (st2, none)

/-- The bidirectional back-reference invariant: for every existing cluster
and every existing sample, membership of the sample in the cluster's member
set coincides with membership of the cluster's id in the sample's
`cluster_ids`. -/
def Inv (st : DM) : Prop :=
  ∀ cid c, lookupA cid st.clusters = some c →
    ∀ sid s, lookupA sid st.samples = some s →
      (sid ∈ c.samples ↔ cid ∈ s.cluster_ids)

/-- Decidable entry-wise form of the invariant, for concrete states. -/
def InvCheck (st : DM) : Prop :=
  ∀ p ∈ st.clusters, ∀ q ∈ st.samples,
    (q.1 ∈ p.2.samples ↔ p.1 ∈ q.2.cluster_ids)

instance (st : DM) : Decidable (InvCheck st) := by
  unfold InvCheck; infer_instance

/-- A concrete k-means oracle assigning every row the label 0, used to
instantiate theorems at concrete inputs. -/
def trivialKmeans : KmeansOracle :=
  ⟨fun fs _ => List.replicate fs.length 0, fun fs k => by simp⟩

/-- A concrete geometry oracle with all quantities zero, for instantiating
theorems at concrete inputs. -/
def zeroCV : CVOracle :=
  ⟨fun _ => 0, fun _ => 0, fun _ => ((0, 0), (0, 0), 0),
   fun _ => (0, 0, 0, 0), fun _ => 0, fun _ => [], 0, 0, fun _ => 0, 0⟩

/-- A concrete geometry oracle whose ellipse fit reports a zero major axis
(as `cv2.fitEllipse` can on degenerate point sets) while every contour has
area 100. -/
def degenerateCV : CVOracle :=
  ⟨fun _ => 100, fun _ => 0, fun _ => ((0, 0), (0, 5), 0),
   fun _ => (0, 0, 0, 0), fun _ => 0, fun _ => [], 0, 0, fun _ => 0, 0⟩

/-- Five collinear points, a degenerate input for an ellipse fit. -/
def collinear5 : Contour := [(0, 0), (1, 1), (2, 2), (3, 3), (4, 4)]

/-- A concrete one-cluster, one-sample manager state with consistent
back-references, for instantiating theorems at concrete inputs. -/
def dmExample : DM :=
  { clusters := [("c1", { color := "#ffffff", samples := {"s1"} })],
    samples := [("s1", { cluster_ids := {"c1"} })] }

/-! ## Helper lemmas -/

theorem zipWith_sub_self_zero {r : List ℚ} {x : ℚ}
    (hx : x ∈ List.zipWith (fun a b => a - b) r r) : x = 0 := by
  induction r with
  | nil => simp at hx
  | cons a t ih =>
    simp only [List.zipWith, List.mem_cons] at hx
    rcases hx with h | h
    · simp [h]
    · exact ih h

theorem dotQ_of_left_zero (a : List ℚ) (ha : ∀ x ∈ a, x = 0) (b : List ℚ) :
    dotQ a b = 0 := by
  induction a generalizing b with
  | nil => simp [dotQ]
  | cons x t ih =>
    cases b with
    | nil => simp [dotQ]
    | cons y u =>
      have hx : x = 0 := ha x (by simp)
      have ht : dotQ t u = 0 := ih (fun z hz => ha z (by simp [hz])) u
      simp [dotQ] at ht ⊢
      simp [hx, ht]

theorem colMeans_singleton (r : List ℚ) : colMeans [r] = r := by
  apply List.ext_getElem
  · simp [colMeans, columnsOf]
  · intro i h1 h2
    simp only [colMeans, columnsOf, List.getElem_map, List.getElem_range,
      List.filterMap_cons, List.filterMap_nil]
    have h : r[i]? = some r[i] := List.getElem?_eq_getElem h2
    simp [h]

/-! ## Claim C1 -/

/-- C1: for every registered model name and every image that loads
successfully, `extract_features` returns a 1-D vector whose length equals
the dimension registered for that model, and the registered dimensions of
the five models (mobilenetv3s, mobilenetv3l, dinov2s, dinov2b, hiera_huge)
are 1024, 1280, 384, 384, 384 respectively. -/
theorem extract_features_registered_dim :
    (∀ (rz : ResizeOracle) (sess : OrtSession) (name : String) (img : Img)
      (d : Nat), name ∈ registeredModels → model_dimension name = some d →
      sess.featureDim = d → (extract_features rz sess name img).length = d) ∧
    model_dimension "mobilenetv3s" = some 1024 ∧
    model_dimension "mobilenetv3l" = some 1280 ∧
    model_dimension "dinov2s" = some 384 ∧
    model_dimension "dinov2b" = some 384 ∧
    model_dimension "hiera_huge" = some 384 := by
  refine ⟨?_, by decide, by decide, by decide, by decide, by decide⟩
  intro rz sess name img d _ _ hdim
  simp only [extract_features, List.length_flatten, sess.run_total, hdim]

/-- Witness for C1: a session of declared dimension 384 run for `dinov2s`
yields a 384-element vector. -/
theorem extract_features_registered_dim_witness :
    (extract_features ⟨fun img _ => img⟩
      ⟨384, fun _ => [List.replicate 384 0], fun _ => by
        rw [List.map_cons, List.map_nil, List.length_replicate,
          List.sum_cons, List.sum_nil, Nat.add_zero]⟩
      "dinov2s" []).length = 384 :=
  extract_features_registered_dim.1 ⟨fun img _ => img⟩
    ⟨384, fun _ => [List.replicate 384 0], fun _ => by
      rw [List.map_cons, List.map_nil, List.length_replicate,
        List.sum_cons, List.sum_nil, Nat.add_zero]⟩
    "dinov2s" [] 384 (by decide) (by decide) rfl

/-! ## Claim C8 -/

/-- C8 counterexample: the claim asserts that some registered model family is
resized to 256×256, but the 256×256 branch of `extract_features` requires
the substring "mobilevit" in the model name and no registered model name
contains it — every one of the five registered models resizes to 224×224. -/
theorem target_size_no_registered_256 :
    target_size "mobilenetv3s" = (224, 224) ∧
    target_size "mobilenetv3l" = (224, 224) ∧
    target_size "dinov2s" = (224, 224) ∧
    target_size "dinov2b" = (224, 224) ∧
    target_size "hiera_huge" = (224, 224) ∧
    registeredModels =
      ["mobilenetv3s", "mobilenetv3l", "dinov2s", "dinov2b", "hiera_huge"] := by
  decide

/-- C8 amended: preprocessing resizes every registered model's input to
224×224; the 256×256 target applies exactly to model names containing
"mobilevit" as a substring, and no registered name does. -/
theorem target_size_amended :
    (∀ name ∈ registeredModels, target_size name = (224, 224) ∧
      hasSubstr name.data "mobilevit".data = false) ∧
    (∀ name : String, hasSubstr name.data "mobilevit".data = true →
      target_size name = (256, 256)) := by
  constructor
  · decide
  · intro name h
    simp [target_size, h]

/-- Witness for C8 amended, at a registered name and at a hypothetical
"mobilevit" name. -/
theorem target_size_amended_witness :
    (target_size "dinov2s" = (224, 224) ∧
      hasSubstr "dinov2s".data "mobilevit".data = false) ∧
    target_size "mobilevit_s" = (256, 256) :=
  ⟨target_size_amended.1 "dinov2s" (by decide),
    target_size_amended.2 "mobilevit_s" (by decide)⟩

/-! ## Claim C7 -/

/-- C7 counterexample: for the single-row feature matrix [[1, 2]] (so N = 1)
and a PCA fit retaining one component, `reduce_dimensions` returns the
centered projection [[0]], not the input: the source has no degenerate-case
branch. -/
theorem reduce_dimensions_one_row_not_input :
    reduce_dimensions [[1], [0]] [[1, 2]] ≠ [[1, 2]] := by
  norm_num [reduce_dimensions, pcaFitTransform, matMul, centered, colMeans,
    columnsOf, dotQ, List.filterMap, List.range, List.range.loop]

/-- C7 amended: `reduce_dimensions` unconditionally applies the PCA
projection to the centered input, with no branch on the matrix shape; for
every single-row input the centered matrix is zero, so the output is one
all-zero row (of the projected width) rather than the input row. -/
theorem reduce_dimensions_one_row_zero (W : List (List ℚ)) (r : List ℚ) :
    (reduce_dimensions W [r]).length = 1 ∧
    ∀ v ∈ (reduce_dimensions W [r]).flatten, v = 0 := by
  constructor
  · simp [reduce_dimensions, pcaFitTransform, matMul, centered]
  · intro v hv
    simp only [reduce_dimensions, pcaFitTransform, matMul, centered,
      colMeans_singleton, List.map_cons, List.map_nil, List.flatten,
      List.append_nil, List.mem_map] at hv
    obtain ⟨col, _, hcol⟩ := hv
    rw [← hcol]
    exact dotQ_of_left_zero _ (fun x hx => zipWith_sub_self_zero hx) col

/-! ## Claim C5 -/

/-- C5 counterexample: clustering one feature vector into k = 2 clusters.
The claim says this "fails with a typed InsufficientDataError"; in the code
the library exception is caught by the bare `except` in
`perform_clustering`, which logs and returns — the caller receives the
unchanged state and no error value of any kind (and no
`InsufficientDataError` type exists anywhere in the repository). -/
theorem perform_clustering_no_typed_error :
    dm_perform_clustering trivialKmeans (fun M => M) [] "#ffffff"
      ⟨[], []⟩ [("img1", some [(1 : ℚ), 2])] 2 = (⟨[], []⟩, none) := rfl

/-- C5 amended: when fewer feature vectors than requested clusters are
available, the clustering library raises, `perform_clustering` catches the
exception, logs, and returns: the cluster table is unchanged, no cluster
assignment is produced, `k` is not reduced, and no typed error is surfaced
to the caller. -/
theorem perform_clustering_insufficient_data (o : KmeansOracle)
    (reduceO : List (List ℚ) → List (List ℚ))
    (hred : ∀ M, (reduceO M).length = M.length)
    (fresh : List String) (color : String) (st : DM)
    (featTable : List (String × Option (List ℚ))) (k : Nat)
    (hk : (featTable.filterMap (fun p => p.2.map (fun f => (p.1, f)))).length < k) :
    dm_perform_clustering o reduceO fresh color st featTable k = (st, none) := by
  unfold dm_perform_clustering
  by_cases he :
      (featTable.filterMap (fun p => p.2.map (fun f => (p.1, f)))).isEmpty
  · simp [he]
  · simp only [he, Bool.false_eq_true, if_false, cluster_images,
      faiss_kmeans_train, hred, List.length_map, hk, if_pos]

/-- Witness for C5 amended: two feature entries, one with a missing file,
clustered with k = 3. -/
theorem perform_clustering_insufficient_data_witness :
    dm_perform_clustering trivialKmeans (fun M => M) ["f1"] "#ffffff"
      ⟨[], []⟩ [("img1", some [(1 : ℚ), 2]), ("img2", none)] 3 =
      (⟨[], []⟩, none) :=
  perform_clustering_insufficient_data trivialKmeans (fun M => M)
    (fun _ => rfl) ["f1"] "#ffffff" ⟨[], []⟩
    [("img1", some [(1 : ℚ), 2]), ("img2", none)] 3 (by decide)

/-! ## Claim C3 -/

/-- C3: for matching dimensions, when no contour survives the area filter
(in particular for an all-zero mask, where `findContours` yields no
contours), `get_object_properties` returns a mapping with exactly the 14
descriptor keys, every value 0 — it neither raises nor omits a key. -/
theorem get_object_properties_zero_contours (o : CVOracle)
    (imgH imgW maskH maskW : Nat) (contours : List Contour) (ratio : ℚ)
    (hdim : (imgH, imgW) = (maskH, maskW))
    (hval : get_valid_contours o contours ((imgH : ℚ) * (imgW : ℚ)) ratio = []) :
    get_object_properties o imgH imgW maskH maskW contours ratio =
      .ok zero_properties ∧
    zero_properties.map Prod.fst =
      ["area", "perimeter", "eccentricity", "solidity", "aspect_ratio",
       "circularity", "major_axis_length", "minor_axis_length",
       "mean_intensity", "std_intensity", "compactness", "convexity",
       "curl", "volume"] ∧
    ∀ p ∈ zero_properties, p.2 = 0 := by
  refine ⟨?_, rfl, ?_⟩
  · simp [get_object_properties, hdim, hval]
  · intro p hp
    simp only [zero_properties, List.mem_cons, List.not_mem_nil, or_false] at hp
    rcases hp with h | h | h | h | h | h | h | h | h | h | h | h | h | h <;>
      simp [h]

/-- Witness for C3: an empty contour list on a 4×4 image and mask. -/
theorem get_object_properties_zero_contours_witness :
    get_object_properties zeroCV 4 4 4 4 [] (5 / 100) = .ok zero_properties ∧
    zero_properties.map Prod.fst =
      ["area", "perimeter", "eccentricity", "solidity", "aspect_ratio",
       "circularity", "major_axis_length", "minor_axis_length",
       "mean_intensity", "std_intensity", "compactness", "convexity",
       "curl", "volume"] ∧
    ∀ p ∈ zero_properties, p.2 = 0 :=
  get_object_properties_zero_contours zeroCV 4 4 4 4 [] (5 / 100) rfl rfl

/-! ## Claim C9 -/

/-- C9: when the image and mask 2-D dimensions differ,
`get_object_properties` raises `ValueError` before computing any
descriptor — the result is the error for every contour list and every
oracle, so no partial attribute mapping is ever produced. -/
theorem get_object_properties_dim_mismatch (o : CVOracle)
    (imgH imgW maskH maskW : Nat) (contours : List Contour) (ratio : ℚ)
    (hdim : (imgH, imgW) ≠ (maskH, maskW)) :
    get_object_properties o imgH imgW maskH maskW contours ratio =
      .error "Image and mask dimensions do not match." := by
  simp [get_object_properties, hdim]

/-- Witness for C9: a 2×2 image against a 3×2 mask. -/
theorem get_object_properties_dim_mismatch_witness :
    get_object_properties zeroCV 2 2 3 2 [collinear5] (5 / 100) =
      .error "Image and mask dimensions do not match." :=
  get_object_properties_dim_mismatch zeroCV 2 2 3 2 [collinear5] (5 / 100)
    (by decide)

/-! ## Claim C4 -/

/-- C4 counterexample: a surviving 5-point contour whose ellipse fit has a
zero major axis.  The claim says the eccentricity minor/major ratio is
guarded so a zero denominator yields 0; in the source the division
`minor_axis_length / major_axis_length` is a Python float division with no
guard, so this input raises `ZeroDivisionError` instead. -/
theorem get_object_properties_ecc_unguarded :
    get_object_properties degenerateCV 10 10 10 10 [collinear5] (5 / 100) =
      .error "ZeroDivisionError: float division by zero" := by
  unfold get_object_properties get_valid_contours
  norm_num [collinear5, degenerateCV, allPointsOf, List.filter]

/-- C4 amended: with at least one valid contour, the divisions for solidity,
aspect ratio, circularity, compactness, curl and convexity are each guarded
to yield 0 on a zero denominator, and whenever the eccentricity branch does
not fault the function returns exactly these guarded values; the
eccentricity axis ratio alone is unguarded — with at least 5 boundary points
and a zero major axis the function raises instead of returning 0. -/
theorem get_object_properties_guards (o : CVOracle)
    (imgH imgW maskH maskW : Nat) (contours : List Contour) (ratio : ℚ)
    (hdim : (imgH, imgW) = (maskH, maskW))
    (hval : ¬ get_valid_contours o contours ((imgH : ℚ) * (imgW : ℚ)) ratio = []) :
    (let valid := get_valid_contours o contours ((imgH : ℚ) * (imgW : ℚ)) ratio
     (o.hullArea (allPointsOf valid) = 0 → solidityOf o valid = 0) ∧
     ((o.boundingRect (allPointsOf valid)).2.2.2 = 0 →
       aspectRatioOf o valid = 0) ∧
     (perimeterOf o valid = 0 → circularityOf o valid = 0) ∧
     (areaOf o valid = 0 → compactnessOf o valid = 0 ∧ curlOf o valid = 0) ∧
     (o.arcLength (o.hullPoints (allPointsOf valid)) = 0 →
       convexityOf o valid = 0) ∧
     ((5 ≤ (allPointsOf valid).length →
        (o.fitEllipse (allPointsOf valid)).2.1.1 ≠ 0) →
       ∃ e m n, get_object_properties o imgH imgW maskH maskW contours ratio =
         .ok (propsDict o valid e m n)) ∧
     (5 ≤ (allPointsOf valid).length →
       (o.fitEllipse (allPointsOf valid)).2.1.1 = 0 →
       get_object_properties o imgH imgW maskH maskW contours ratio =
         .error "ZeroDivisionError: float division by zero")) := by
  intro valid
  refine ⟨?_, ?_, ?_, ?_, ?_, ?_, ?_⟩
  · intro h; simp [solidityOf, h]
  · intro h; simp [aspectRatioOf, h]
  · intro h; simp [circularityOf, h]
  · intro h; exact ⟨by simp [compactnessOf, h], by simp [curlOf, h]⟩
  · intro h
    by_cases hl : 0 < (allPointsOf valid).length ∧ 2 ≤ (allPointsOf valid).length
    · simp [convexityOf, hl, h]
    · simp [convexityOf, hl]
  · intro hmaj
    by_cases h5 : 5 ≤ (allPointsOf valid).length
    · refine ⟨o.sqrtF (1 - ((o.fitEllipse (allPointsOf valid)).2.1.2 /
        (o.fitEllipse (allPointsOf valid)).2.1.1) ^ 2),
        (o.fitEllipse (allPointsOf valid)).2.1.1,
        (o.fitEllipse (allPointsOf valid)).2.1.2, ?_⟩
      simp only [get_object_properties, hdim, ne_eq, not_true_eq_false,
        if_false, hval, List.isEmpty_iff, if_neg]
      simp [h5, hmaj h5]
    · refine ⟨0, 0, 0, ?_⟩
      simp only [get_object_properties, hdim, ne_eq, not_true_eq_false,
        if_false, hval, List.isEmpty_iff, if_neg]
      simp [h5]
  · intro h5 hmaj
    simp only [get_object_properties, hdim, ne_eq, not_true_eq_false,
      if_false, hval, List.isEmpty_iff, if_neg]
    simp [h5, hmaj]

/-- Witness for C4 amended, at a surviving 5-point contour with zero
geometric denominators. -/
theorem get_object_properties_guards_witness :
    (let valid :=
      get_valid_contours degenerateCV [collinear5] ((10 : ℚ) * (10 : ℚ)) (5 / 100)
     (degenerateCV.hullArea (allPointsOf valid) = 0 →
       solidityOf degenerateCV valid = 0) ∧
     ((degenerateCV.boundingRect (allPointsOf valid)).2.2.2 = 0 →
       aspectRatioOf degenerateCV valid = 0) ∧
     (perimeterOf degenerateCV valid = 0 →
       circularityOf degenerateCV valid = 0) ∧
     (areaOf degenerateCV valid = 0 →
       compactnessOf degenerateCV valid = 0 ∧ curlOf degenerateCV valid = 0) ∧
     (degenerateCV.arcLength (degenerateCV.hullPoints (allPointsOf valid)) = 0 →
       convexityOf degenerateCV valid = 0) ∧
     ((5 ≤ (allPointsOf valid).length →
        (degenerateCV.fitEllipse (allPointsOf valid)).2.1.1 ≠ 0) →
       ∃ e m n, get_object_properties degenerateCV 10 10 10 10 [collinear5]
         (5 / 100) = .ok (propsDict degenerateCV valid e m n)) ∧
     (5 ≤ (allPointsOf valid).length →
       (degenerateCV.fitEllipse (allPointsOf valid)).2.1.1 = 0 →
       get_object_properties degenerateCV 10 10 10 10 [collinear5] (5 / 100) =
         .error "ZeroDivisionError: float division by zero")) :=
  get_object_properties_guards degenerateCV 10 10 10 10 [collinear5] (5 / 100)
    rfl (by norm_num [get_valid_contours, degenerateCV, List.filter])

/-! ## Claim C2 -/

/-- The squared centroid test is equivalent to the source's square-root form
whenever the distance ratio is nonnegative. -/
theorem distOk_iff_sqrt (labeled : Nat → Nat → Nat) (h w c : Nat) (ratio : ℚ)
    (hr : 0 ≤ ratio) :
    distOk labeled h w c ratio ↔
      Real.sqrt (((centroidY labeled h w c : ℝ) - (h : ℝ) / 2) ^ 2 +
          ((centroidX labeled h w c : ℝ) - (w : ℝ) / 2) ^ 2) ≤
        (ratio : ℝ) * Real.sqrt ((h : ℝ) ^ 2 + (w : ℝ) ^ 2) := by
  have hB : (0 : ℝ) ≤ (h : ℝ) ^ 2 + (w : ℝ) ^ 2 := by positivity
  have hy : (0 : ℝ) ≤ (ratio : ℝ) * Real.sqrt ((h : ℝ) ^ 2 + (w : ℝ) ^ 2) := by
    have : (0 : ℝ) ≤ (ratio : ℝ) := by exact_mod_cast hr
    positivity
  rw [Real.sqrt_le_left hy, mul_pow, Real.sq_sqrt hB]
  unfold distOk
  rw [show ((centroidY labeled h w c - (h : ℚ) / 2) ^ 2 +
        (centroidX labeled h w c - (w : ℚ) / 2) ^ 2 ≤
        ratio ^ 2 * ((h : ℚ) ^ 2 + (w : ℚ) ^ 2)) ↔
      (((centroidY labeled h w c - (h : ℚ) / 2) ^ 2 +
        (centroidX labeled h w c - (w : ℚ) / 2) ^ 2 : ℚ) : ℝ) ≤
      ((ratio ^ 2 * ((h : ℚ) ^ 2 + (w : ℚ) ^ 2) : ℚ) : ℝ) from
    (Rat.cast_le (K := ℝ)).symm]
  push_cast
  rfl

/-- Pointwise effect of the selection loop: starting from any grid `m`, a
pixel ends at 1 exactly when its label is one of the processed components
and that component is kept; otherwise it keeps its initial value. -/
theorem foldl_selectStep (labeled : Nat → Nat → Nat) (h w minSize : Nat)
    (ratio : ℚ) (L : List Nat) (m : Nat → Nat → Nat) (y x : Nat) :
    (L.foldl (selectStep labeled h w minSize ratio) m) y x =
      if labeled y x ∈ L ∧
          keepComponent labeled h w minSize ratio (labeled y x) then 1
      else m y x := by
  induction L generalizing m with
  | nil => simp
  | cons c L' ih =>
    rw [List.foldl_cons, ih]
    by_cases hk : labeled y x ∈ L' ∧
        keepComponent labeled h w minSize ratio (labeled y x)
    · simp [hk, hk.1, hk.2]
    · rw [if_neg hk]
      unfold selectStep
      by_cases hc : keepComponent labeled h w minSize ratio c
      · rw [if_pos hc]
        by_cases hlx : labeled y x = c
        · rw [if_pos hlx, if_pos ⟨by simp [hlx], hlx ▸ hc⟩]
        · rw [if_neg hlx, if_neg]
          intro hmem
          exact hk ⟨(List.mem_cons.mp hmem.1).resolve_left hlx, hmem.2⟩
      · rw [if_neg hc, if_neg]
        intro hmem
        rcases List.mem_cons.mp hmem.1 with heq | hmem'
        · exact hc (heq ▸ hmem.2)
        · exact hk ⟨hmem', hmem.2⟩

/-- C2: the Otsu segmentation result is the pointwise complement of the
union of the kept connected components: a pixel is 0 exactly when its
component (a label in `1..num`, with at least `min_component_size` pixels)
has its centroid within `max_distance_ratio` times the image diagonal of the
image center, and 1 otherwise.  The hypothesis `hlab` is the labeller's
contract that each emitted component label has at least one pixel. -/
theorem predict_mask_otsu_inverts_kept_components
    (labeled : Nat → Nat → Nat) (h w num minSize : Nat) (ratio : ℚ)
    (hr : 0 ≤ ratio)
    (hlab : ∀ c ∈ List.range' 1 num, 0 < compSize labeled h w c) :
    ∀ y x,
      (predict_mask_otsu labeled h w num minSize ratio y x = 0 ↔
        (1 ≤ labeled y x ∧ labeled y x ≤ num ∧
          minSize ≤ compSize labeled h w (labeled y x) ∧
          Real.sqrt (((centroidY labeled h w (labeled y x) : ℝ) - (h : ℝ) / 2) ^ 2 +
              ((centroidX labeled h w (labeled y x) : ℝ) - (w : ℝ) / 2) ^ 2) ≤
            (ratio : ℝ) * Real.sqrt ((h : ℝ) ^ 2 + (w : ℝ) ^ 2))) ∧
      (predict_mask_otsu labeled h w num minSize ratio y x = 1 ↔
        ¬ (1 ≤ labeled y x ∧ labeled y x ≤ num ∧
          minSize ≤ compSize labeled h w (labeled y x) ∧
          Real.sqrt (((centroidY labeled h w (labeled y x) : ℝ) - (h : ℝ) / 2) ^ 2 +
              ((centroidX labeled h w (labeled y x) : ℝ) - (w : ℝ) / 2) ^ 2) ≤
            (ratio : ℝ) * Real.sqrt ((h : ℝ) ^ 2 + (w : ℝ) ^ 2))) := by
  intro y x
  have hsel := foldl_selectStep labeled h w minSize ratio
    (List.range' 1 num) (fun _ _ => 0) y x
  have hcond : (labeled y x ∈ List.range' 1 num ∧
      keepComponent labeled h w minSize ratio (labeled y x)) ↔
      (1 ≤ labeled y x ∧ labeled y x ≤ num ∧
        minSize ≤ compSize labeled h w (labeled y x) ∧
        Real.sqrt (((centroidY labeled h w (labeled y x) : ℝ) - (h : ℝ) / 2) ^ 2 +
            ((centroidX labeled h w (labeled y x) : ℝ) - (w : ℝ) / 2) ^ 2) ≤
          (ratio : ℝ) * Real.sqrt ((h : ℝ) ^ 2 + (w : ℝ) ^ 2)) := by
    constructor
    · rintro ⟨hmem, hpos, hmin, hd⟩
      obtain ⟨h1, h2⟩ := List.mem_range'_1.mp hmem
      exact ⟨h1, by omega,
        hmin, (distOk_iff_sqrt labeled h w (labeled y x) ratio hr).mp hd⟩
    · rintro ⟨h1, h2, hmin, hd⟩
      have hmem : labeled y x ∈ List.range' 1 num :=
        List.mem_range'_1.mpr ⟨h1, by omega⟩
      exact ⟨hmem, hlab _ hmem, hmin,
        (distOk_iff_sqrt labeled h w (labeled y x) ratio hr).mpr hd⟩
  unfold predict_mask_otsu mask_selected
  rw [hsel]
  by_cases hc : labeled y x ∈ List.range' 1 num ∧
      keepComponent labeled h w minSize ratio (labeled y x)
  · rw [if_pos hc]
    refine ⟨⟨fun _ => hcond.mp hc, fun _ => rfl⟩, ?_, ?_⟩
    · intro habs; omega
    · intro hneg; exact absurd (hcond.mp hc) hneg
  · rw [if_neg hc]
    constructor
    · constructor
      · intro h0; omega
      · intro hx; exact absurd (hcond.mpr hx) hc
    · constructor
      · intro _; exact fun hx => hc (hcond.mpr hx)
      · intro _; rfl

/-- Witness for C2: a 2×2 image entirely covered by component 1, with
ratio 1 and minimum size 1. -/
theorem predict_mask_otsu_inverts_kept_components_witness :
    (0 : ℚ) ≤ 1 ∧
    (∀ c ∈ List.range' 1 1, 0 < compSize (fun _ _ => 1) 2 2 c) ∧
    (∀ y x,
      (predict_mask_otsu (fun _ _ => 1) 2 2 1 1 1 y x = 0 ↔
        (1 ≤ (fun (_ _ : Nat) => 1) y x ∧ (fun (_ _ : Nat) => 1) y x ≤ 1 ∧
          1 ≤ compSize (fun _ _ => 1) 2 2 ((fun (_ _ : Nat) => 1) y x) ∧
          Real.sqrt (((centroidY (fun _ _ => 1) 2 2 ((fun (_ _ : Nat) => 1) y x) : ℝ) - (2 : ℝ) / 2) ^ 2 +
              ((centroidX (fun _ _ => 1) 2 2 ((fun (_ _ : Nat) => 1) y x) : ℝ) - (2 : ℝ) / 2) ^ 2) ≤
            ((1 : ℚ) : ℝ) * Real.sqrt ((2 : ℝ) ^ 2 + (2 : ℝ) ^ 2))) ∧
      (predict_mask_otsu (fun _ _ => 1) 2 2 1 1 1 y x = 1 ↔
        ¬ (1 ≤ (fun (_ _ : Nat) => 1) y x ∧ (fun (_ _ : Nat) => 1) y x ≤ 1 ∧
          1 ≤ compSize (fun _ _ => 1) 2 2 ((fun (_ _ : Nat) => 1) y x) ∧
          Real.sqrt (((centroidY (fun _ _ => 1) 2 2 ((fun (_ _ : Nat) => 1) y x) : ℝ) - (2 : ℝ) / 2) ^ 2 +
              ((centroidX (fun _ _ => 1) 2 2 ((fun (_ _ : Nat) => 1) y x) : ℝ) - (2 : ℝ) / 2) ^ 2) ≤
            ((1 : ℚ) : ℝ) * Real.sqrt ((2 : ℝ) ^ 2 + (2 : ℝ) ^ 2)))) :=
  ⟨by decide, by decide,
    predict_mask_otsu_inverts_kept_components (fun _ _ => 1) 2 2 1 1 1
      (by decide) (by decide)⟩

/-! ## Association-table lemmas -/

theorem lookupA_mem {κ α : Type} [DecidableEq κ] {k : κ} {v : α}
    {l : List (κ × α)} (h : lookupA k l = some v) : (k, v) ∈ l := by
  induction l with
  | nil => simp [lookupA] at h
  | cons p rest ih =>
    obtain ⟨k', v'⟩ := p
    by_cases hk : k' = k
    · subst hk
      simp [lookupA] at h
      simp [h]
    · simp only [lookupA, if_neg hk] at h
      exact List.mem_cons_of_mem _ (ih h)

theorem lookupA_updateA_self {κ α : Type} [DecidableEq κ] (k : κ) (f : α → α)
    (l : List (κ × α)) :
    lookupA k (updateA k f l) = (lookupA k l).map f := by
  induction l with
  | nil => simp [lookupA, updateA]
  | cons p rest ih =>
    obtain ⟨k', v⟩ := p
    by_cases h : k' = k
    · simp [lookupA, updateA, h]
    · simp [lookupA, updateA, h, ih]

theorem lookupA_updateA_ne {κ α : Type} [DecidableEq κ] {k k' : κ}
    (f : α → α) (l : List (κ × α)) (h : k' ≠ k) :
    lookupA k (updateA k' f l) = lookupA k l := by
  induction l with
  | nil => simp [lookupA, updateA]
  | cons p rest ih =>
    obtain ⟨k'', v⟩ := p
    simp only [updateA, lookupA]
    by_cases hk : k'' = k
    · subst hk
      have hkk : ¬ k'' = k' := fun hh => h hh.symm
      simp [hkk]
    · simp [hk, ih]

theorem lookupA_isSome_updateA {κ α : Type} [DecidableEq κ] (k k' : κ)
    (f : α → α) (l : List (κ × α)) :
    (lookupA k (updateA k' f l)).isSome = (lookupA k l).isSome := by
  by_cases h : k' = k
  · subst h
    rw [lookupA_updateA_self]
    cases lookupA k' l <;> rfl
  · rw [lookupA_updateA_ne f l h]

theorem lookupA_removeA_self {κ α : Type} [DecidableEq κ] (k : κ)
    (l : List (κ × α)) : lookupA k (removeA k l) = none := by
  induction l with
  | nil => rfl
  | cons p rest ih =>
    obtain ⟨k', v⟩ := p
    simp only [removeA]
    by_cases h : k' = k
    · simp [h, ih]
    · simp [h, lookupA, ih]

theorem lookupA_removeA_ne {κ α : Type} [DecidableEq κ] {k k' : κ}
    (l : List (κ × α)) (h : k' ≠ k) :
    lookupA k (removeA k' l) = lookupA k l := by
  induction l with
  | nil => rfl
  | cons p rest ih =>
    obtain ⟨k'', v⟩ := p
    simp only [removeA, lookupA]
    by_cases hk : k'' = k'
    · subst hk
      have hne : ¬ k'' = k := fun hh => h (hh ▸ rfl)
      simp [hne, ih]
    · by_cases hkk : k'' = k
      · subst hkk
        simp [hk, lookupA]
      · simp [hk, hkk, lookupA, ih]

theorem lookupA_mapMembers {α : Type} (keys : Finset String) (f : α → α)
    (l : List (String × α)) (k : String) :
    lookupA k (mapMembers keys f l) =
      (lookupA k l).map (fun v => if k ∈ keys then f v else v) := by
  induction l with
  | nil => rfl
  | cons p rest ih =>
    obtain ⟨k', v⟩ := p
    simp only [mapMembers, List.map_cons, lookupA]
    by_cases hk : k' = k
    · subst hk
      by_cases hm : k' ∈ keys <;> simp [hm]
    · simpa [hk] using ih

theorem Inv_of_InvCheck (st : DM) (h : InvCheck st) : Inv st := by
  intro cid c hc sid s hs
  exact h (cid, c) (lookupA_mem hc) (sid, s) (lookupA_mem hs)

/-! ## Invariant preservation lemmas -/

theorem Inv_dmAddImage {st : DM} (hst : Inv st) (cid sid : String) :
    Inv (dmAddImage st cid sid) := by
  intro cid' c' hc' sid' s' hs'
  simp only [dmAddImage] at hc' hs'
  by_cases hcc : cid' = cid <;> by_cases hss : sid' = sid
  · subst hcc; subst hss
    rw [lookupA_updateA_self] at hc' hs'
    rcases Option.map_eq_some'.mp hc' with ⟨c0, hc0, hfc⟩
    rcases Option.map_eq_some'.mp hs' with ⟨s0, hs0, hfs⟩
    subst hfc; subst hfs
    simp
  · subst hcc
    rw [lookupA_updateA_self] at hc'
    rw [lookupA_updateA_ne _ _ (fun hh => hss hh.symm)] at hs'
    rcases Option.map_eq_some'.mp hc' with ⟨c0, hc0, hfc⟩
    subst hfc
    have hiff := hst cid' c0 hc0 sid' s' hs'
    simp only [Finset.mem_insert]
    constructor
    · rintro (h | h)
      · exact absurd h hss
      · exact hiff.mp h
    · intro h
      exact Or.inr (hiff.mpr h)
  · subst hss
    rw [lookupA_updateA_ne _ _ (fun hh => hcc hh.symm)] at hc'
    rw [lookupA_updateA_self] at hs'
    rcases Option.map_eq_some'.mp hs' with ⟨s0, hs0, hfs⟩
    subst hfs
    have hiff := hst cid' c' hc' sid' s0 hs0
    simp only [Finset.mem_insert]
    constructor
    · intro h
      exact Or.inr (hiff.mp h)
    · rintro (h | h)
      · exact absurd h hcc
      · exact hiff.mpr h
  · rw [lookupA_updateA_ne _ _ (fun hh => hcc hh.symm)] at hc'
    rw [lookupA_updateA_ne _ _ (fun hh => hss hh.symm)] at hs'
    exact hst cid' c' hc' sid' s' hs'

theorem Inv_dmRemoveImage {st : DM} (hst : Inv st) (cid sid : String) :
    Inv (dmRemoveImage st cid sid) := by
  intro cid' c' hc' sid' s' hs'
  simp only [dmRemoveImage] at hc' hs'
  by_cases hcc : cid' = cid <;> by_cases hss : sid' = sid
  · subst hcc; subst hss
    rw [lookupA_updateA_self] at hc' hs'
    rcases Option.map_eq_some'.mp hc' with ⟨c0, hc0, hfc⟩
    rcases Option.map_eq_some'.mp hs' with ⟨s0, hs0, hfs⟩
    subst hfc; subst hfs
    simp
  · subst hcc
    rw [lookupA_updateA_self] at hc'
    rw [lookupA_updateA_ne _ _ (fun hh => hss hh.symm)] at hs'
    rcases Option.map_eq_some'.mp hc' with ⟨c0, hc0, hfc⟩
    subst hfc
    have hiff := hst cid' c0 hc0 sid' s' hs'
    simp only [Finset.mem_erase]
    constructor
    · rintro ⟨_, h⟩
      exact hiff.mp h
    · intro h
      exact ⟨hss, hiff.mpr h⟩
  · subst hss
    rw [lookupA_updateA_ne _ _ (fun hh => hcc hh.symm)] at hc'
    rw [lookupA_updateA_self] at hs'
    rcases Option.map_eq_some'.mp hs' with ⟨s0, hs0, hfs⟩
    subst hfs
    have hiff := hst cid' c' hc' sid' s0 hs0
    simp only [Finset.mem_erase]
    constructor
    · intro h
      exact ⟨hcc, hiff.mp h⟩
    · rintro ⟨_, h⟩
      exact hiff.mpr h
  · rw [lookupA_updateA_ne _ _ (fun hh => hcc hh.symm)] at hc'
    rw [lookupA_updateA_ne _ _ (fun hh => hss hh.symm)] at hs'
    exact hst cid' c' hc' sid' s' hs'

theorem Inv_create_cluster {st : DM} (hst : Inv st) (freshId color : String)
    (hfresh : ∀ sid s, lookupA sid st.samples = some s →
      freshId ∉ s.cluster_ids) :
    Inv (create_cluster st freshId color) := by
  intro cid' c' hc' sid' s' hs'
  simp only [create_cluster, lookupA] at hc' hs'
  by_cases hcc : freshId = cid'
  · rw [if_pos hcc] at hc'
    cases hc'
    subst hcc
    simp only [Finset.not_mem_empty, false_iff]
    exact hfresh sid' s' hs'
  · rw [if_neg hcc] at hc'
    exact hst cid' c' hc' sid' s' hs'

theorem Inv_delete_cluster {st : DM} (hst : Inv st) (cid : String) :
    Inv (delete_cluster st cid) := by
  unfold delete_cluster
  cases hc0 : lookupA cid st.clusters with
  | none => exact hst
  | some c =>
    intro cid' c' hc' sid' s' hs'
    simp only at hc' hs'
    by_cases hcc : cid' = cid
    · subst hcc
      rw [lookupA_removeA_self] at hc'
      cases hc'
    · rw [lookupA_removeA_ne _ (fun hh => hcc hh.symm)] at hc'
      rw [lookupA_mapMembers] at hs'
      rcases Option.map_eq_some'.mp hs' with ⟨s0, hs0, hfs⟩
      have hiff := hst cid' c' hc' sid' s0 hs0
      by_cases hmem : sid' ∈ c.samples
      · rw [if_pos hmem] at hfs
        subst hfs
        simp only [Finset.mem_erase]
        constructor
        · intro h
          exact ⟨hcc, hiff.mp h⟩
        · rintro ⟨_, h⟩
          exact hiff.mpr h
      · rw [if_neg hmem] at hfs
        subst hfs
        exact hiff

theorem Inv_add_fold (cid : String) (ids : List String) :
    ∀ st : DM, Inv st →
      Inv (ids.foldl (fun s iid =>
        match lookupA iid s.samples with
        | none => s
        | some _ => dmAddImage s cid iid) st) := by
  induction ids with
  | nil => intro st hst; exact hst
  | cons iid rest ih =>
    intro st hst
    rw [List.foldl_cons]
    cases h : lookupA iid st.samples with
    | none => simpa [h] using ih st hst
    | some s0 => simpa [h] using ih _ (Inv_dmAddImage hst cid iid)

theorem Inv_add_images_to_cluster {st : DM} (hst : Inv st)
    (ids : List String) (cid : String) :
    Inv (add_images_to_cluster st ids cid) := by
  unfold add_images_to_cluster
  cases lookupA cid st.clusters with
  | none => exact hst
  | some _ => exact Inv_add_fold cid ids st hst

theorem Inv_remove_fold (cid : String) (ids : List String) :
    ∀ st : DM, Inv st →
      Inv (ids.foldl (fun s iid =>
        match lookupA iid s.samples with
        | none => s
        | some _ => dmRemoveImage s cid iid) st) := by
  induction ids with
  | nil => intro st hst; exact hst
  | cons iid rest ih =>
    intro st hst
    rw [List.foldl_cons]
    cases h : lookupA iid st.samples with
    | none => simpa [h] using ih st hst
    | some s0 => simpa [h] using ih _ (Inv_dmRemoveImage hst cid iid)

theorem Inv_remove_images_from_cluster {st : DM} (hst : Inv st)
    (ids : List String) (cid : String) :
    Inv (remove_images_from_cluster st ids cid) := by
  unfold remove_images_from_cluster
  cases lookupA cid st.clusters with
  | none => exact hst
  | some _ => exact Inv_remove_fold cid ids st hst

theorem Inv_merge_fold (freshId : String) (cids : List String) :
    ∀ st : DM, Inv st →
      Inv (cids.foldl (fun s cid =>
        match lookupA cid s.clusters with
        | none => s
        | some c =>
          delete_cluster
            (add_images_to_cluster s (c.samples.sort (· ≤ ·)) freshId)
            cid) st) := by
  induction cids with
  | nil => intro st hst; exact hst
  | cons cid rest ih =>
    intro st hst
    rw [List.foldl_cons]
    cases h : lookupA cid st.clusters with
    | none => simpa [h] using ih st hst
    | some c =>
      simpa [h] using
        ih _ (Inv_delete_cluster (Inv_add_images_to_cluster hst _ freshId) cid)

theorem Inv_merge_clusters {st : DM} (hst : Inv st) (cids : List String)
    (freshId color : String)
    (hfresh : ∀ sid s, lookupA sid st.samples = some s →
      freshId ∉ s.cluster_ids) :
    Inv (merge_clusters st cids freshId color) := by
  unfold merge_clusters
  by_cases hlen : cids.length < 2
  · simpa [hlen] using hst
  · simp only [hlen, if_false]
    exact Inv_merge_fold freshId cids _
      (Inv_create_cluster hst freshId color hfresh)

theorem Inv_assign_fold (color : String) (ps : List (Nat × String)) :
    ∀ (st : DM) (assoc : List (Nat × String)) (fresh : List String),
      Inv st → fresh.Nodup →
      (∀ f ∈ fresh, ∀ sid s, lookupA sid st.samples = some s →
        f ∉ s.cluster_ids) →
      (∀ f ∈ fresh, ∀ p ∈ assoc, p.2 ≠ f) →
      Inv (assign_fold color st assoc fresh ps) := by
  induction ps with
  | nil =>
    intro st assoc fresh hst _ _ _
    exact hst
  | cons p rest ih =>
    intro st assoc fresh hst hnd hfr hav
    obtain ⟨l, sid⟩ := p
    simp only [assign_fold]
    cases hla : lookupA l assoc with
    | some fid =>
      cases hls : lookupA sid st.samples with
      | none => exact ih st assoc fresh hst hnd hfr hav
      | some s0 =>
        refine ih _ assoc fresh (Inv_dmAddImage hst fid sid) hnd ?_ hav
        intro f hf sid' s' hs'
        simp only [dmAddImage] at hs'
        by_cases hss : sid' = sid
        · subst hss
          rw [lookupA_updateA_self] at hs'
          rcases Option.map_eq_some'.mp hs' with ⟨s1, hs1, hfs⟩
          subst hfs
          simp only [Finset.mem_insert, not_or]
          exact ⟨fun hh => hav f hf (l, fid) (lookupA_mem hla) hh.symm,
            hfr f hf sid' s1 hs1⟩
        · rw [lookupA_updateA_ne _ _ (fun hh => hss hh.symm)] at hs'
          exact hfr f hf sid' s' hs'
    | none =>
      cases fresh with
      | nil => exact hst
      | cons f fresh' =>
        have hfhd : f ∈ f :: fresh' := by simp
        have hst1 : Inv (create_cluster st f color) :=
          Inv_create_cluster hst f color (fun sid' s' hs' => hfr f hfhd sid' s' hs')
        have hnd' : fresh'.Nodup := (List.nodup_cons.mp hnd).2
        have hfnot : f ∉ fresh' := (List.nodup_cons.mp hnd).1
        cases hls : lookupA sid (create_cluster st f color).samples with
        | none =>
          simp only [hls]
          refine ih _ ((l, f) :: assoc) fresh' hst1 hnd' ?_ ?_
          · intro f' hf' sid' s' hs'
            exact hfr f' (by simp [hf']) sid' s' hs'
          · intro f' hf' q hq
            rcases List.mem_cons.mp hq with hq1 | hq2
            · subst hq1
              intro hh
              exact hfnot (by simpa [← hh] using hf')
            · exact hav f' (by simp [hf']) q hq2
        | some s0 =>
          simp only [hls]
          refine ih _ ((l, f) :: assoc) fresh'
            (Inv_dmAddImage hst1 f sid) hnd' ?_ ?_
          · intro f' hf' sid' s' hs'
            simp only [dmAddImage] at hs'
            by_cases hss : sid' = sid
            · subst hss
              rw [lookupA_updateA_self] at hs'
              rcases Option.map_eq_some'.mp hs' with ⟨s1, hs1, hfs⟩
              subst hfs
              simp only [Finset.mem_insert, not_or]
              have hs1' : lookupA sid' st.samples = some s1 := hs1
              exact ⟨fun hh => hfnot (hh ▸ hf'),
                hfr f' (by simp [hf']) sid' s1 hs1'⟩
            · rw [lookupA_updateA_ne _ _ (fun hh => hss hh.symm)] at hs'
              exact hfr f' (by simp [hf']) sid' s' hs'
          · intro f' hf' q hq
            rcases List.mem_cons.mp hq with hq1 | hq2
            · subst hq1
              intro hh
              exact hfnot (by simpa [← hh] using hf')
            · exact hav f' (by simp [hf']) q hq2

theorem Inv_dm_split_cluster {st : DM} (hst : Inv st) (o : KmeansOracle)
    (reduceO : List (List ℚ) → List (List ℚ))
    (featureO : String → Option (List ℚ)) (fresh : List String)
    (color : String) (cid : String) (k : Nat)
    (hnd : fresh.Nodup)
    (hfr : ∀ f ∈ fresh, ∀ sid s, lookupA sid st.samples = some s →
      f ∉ s.cluster_ids) :
    Inv (dm_split_cluster o reduceO featureO fresh color st cid k) := by
  unfold dm_split_cluster
  cases lookupA cid st.clusters with
  | none => exact hst
  | some c =>
    simp only
    split
    · exact hst
    · split
      · exact hst
      · split
        · exact hst
        · exact Inv_delete_cluster
            (Inv_assign_fold color _ st [] fresh hst hnd hfr
              (by intro f _ q hq; cases hq)) cid

/-! ## Claim C10 -/

/-- C10: every cluster-table operation — adding images to a cluster,
removing images, deleting a cluster, merging clusters, splitting a
cluster — preserves the bidirectional back-reference invariant: a sample is
a member of a cluster's `samples` set iff the cluster's id is in the
sample's `cluster_ids` set, for every existing sample and cluster.  The
freshly drawn uuid4 cluster ids are assumed fresh: they appear in no
sample's `cluster_ids`. -/
theorem cluster_ops_preserve_backrefs (st : DM) (hst : Inv st) :
    (∀ ids cid, Inv (add_images_to_cluster st ids cid)) ∧
    (∀ ids cid, Inv (remove_images_from_cluster st ids cid)) ∧
    (∀ cid, Inv (delete_cluster st cid)) ∧
    (∀ cids freshId color,
      (∀ sid s, lookupA sid st.samples = some s → freshId ∉ s.cluster_ids) →
      Inv (merge_clusters st cids freshId color)) ∧
    (∀ o reduceO featureO fresh color cid k, List.Nodup fresh →
      (∀ f ∈ fresh, ∀ sid s, lookupA sid st.samples = some s →
        f ∉ s.cluster_ids) →
      Inv (dm_split_cluster o reduceO featureO fresh color st cid k)) :=
  ⟨fun ids cid => Inv_add_images_to_cluster hst ids cid,
   fun ids cid => Inv_remove_images_from_cluster hst ids cid,
   fun cid => Inv_delete_cluster hst cid,
   fun cids freshId color hf => Inv_merge_clusters hst cids freshId color hf,
   fun o r fo fresh color cid k hnd hfr =>
     Inv_dm_split_cluster hst o r fo fresh color cid k hnd hfr⟩

/-- Witness for C10 at a concrete one-cluster, one-sample state. -/
theorem cluster_ops_preserve_backrefs_witness :
    (∀ ids cid, Inv (add_images_to_cluster dmExample ids cid)) ∧
    (∀ ids cid, Inv (remove_images_from_cluster dmExample ids cid)) ∧
    (∀ cid, Inv (delete_cluster dmExample cid)) ∧
    (∀ cids freshId color,
      (∀ sid s, lookupA sid dmExample.samples = some s →
        freshId ∉ s.cluster_ids) →
      Inv (merge_clusters dmExample cids freshId color)) ∧
    (∀ o reduceO featureO fresh color cid k, List.Nodup fresh →
      (∀ f ∈ fresh, ∀ sid s, lookupA sid dmExample.samples = some s →
        f ∉ s.cluster_ids) →
      Inv (dm_split_cluster o reduceO featureO fresh color dmExample cid k)) :=
  cluster_ops_preserve_backrefs dmExample
    (Inv_of_InvCheck dmExample (by decide))

/-! ## Behaviour of the split assignment loop (claim C6) -/

theorem assign_fold_spec (color : String) (ps : List (Nat × String)) :
    ∀ (st : DM) (assoc : List (Nat × String)) (fresh : List String),
      (ps.map Prod.snd).Nodup →
      fresh.Nodup →
      ps.length ≤ fresh.length →
      (∀ p ∈ ps, (lookupA p.2 st.samples).isSome = true) →
      (∀ f ∈ fresh, lookupA f st.clusters = none) →
      (∀ f ∈ fresh, ∀ q ∈ assoc, q.2 ≠ f) →
      (∀ q ∈ assoc, ∃ cl, lookupA q.2 st.clusters = some cl) →
      (∀ key, key ∉ fresh → (∀ q ∈ assoc, q.2 ≠ key) →
        lookupA key (assign_fold color st assoc fresh ps).clusters =
          lookupA key st.clusters) ∧
      (∀ sid, sid ∉ ps.map Prod.snd →
        lookupA sid (assign_fold color st assoc fresh ps).samples =
          lookupA sid st.samples) ∧
      (∀ key cl, lookupA key st.clusters = some cl →
        ∃ cl', lookupA key (assign_fold color st assoc fresh ps).clusters =
          some cl' ∧ cl.samples ⊆ cl'.samples) ∧
      (∀ p ∈ ps, ∃ f s0,
        (f ∈ fresh ∨ lookupA p.1 assoc = some f) ∧
        lookupA p.2 st.samples = some s0 ∧
        lookupA p.2 (assign_fold color st assoc fresh ps).samples =
          some { cluster_ids := insert f s0.cluster_ids } ∧
        ∃ cl, lookupA f (assign_fold color st assoc fresh ps).clusters =
          some cl ∧ p.2 ∈ cl.samples) := by
  induction ps with
  | nil =>
    intro st assoc fresh _ _ _ _ _ _ _
    exact ⟨fun _ _ _ => rfl, fun _ _ => rfl,
      fun key cl h => ⟨cl, h, Finset.Subset.refl _⟩,
      fun p hp => absurd hp (List.not_mem_nil p)⟩
  | cons p rest ih =>
    intro st assoc fresh hnds hndf hlen hsome hfcl hav hacl
    obtain ⟨l, sid⟩ := p
    simp only [List.map_cons, List.nodup_cons] at hnds
    obtain ⟨hsidrest, hnds'⟩ := hnds
    obtain ⟨s0, hs0⟩ : ∃ s0, lookupA sid st.samples = some s0 := by
      have hh := hsome (l, sid) (by simp)
      cases h : lookupA sid st.samples with
      | none => rw [h] at hh; simp at hh
      | some s0 => exact ⟨s0, rfl⟩
    simp only [assign_fold]
    cases hla : lookupA l assoc with
    | some fid =>
      have hfidav : (l, fid) ∈ assoc := lookupA_mem hla
      simp only [hs0]
      set st' := dmAddImage st fid sid with hst'
      obtain ⟨cl0, hcl0⟩ := hacl (l, fid) hfidav
      have hfidne : ∀ f ∈ fresh, fid ≠ f := fun f hf => hav f hf (l, fid) hfidav
      have hsome' : ∀ q ∈ rest, (lookupA q.2 st'.samples).isSome = true := by
        intro q hq
        rw [hst']
        simp only [dmAddImage]
        rw [lookupA_isSome_updateA]
        exact hsome q (by simp [hq])
      have hfcl' : ∀ f ∈ fresh, lookupA f st'.clusters = none := by
        intro f hf
        rw [hst']
        simp only [dmAddImage]
        rw [lookupA_updateA_ne _ _ (hfidne f hf)]
        exact hfcl f hf
      have hacl' : ∀ q ∈ assoc, ∃ cl, lookupA q.2 st'.clusters = some cl := by
        intro q hq
        obtain ⟨cl, hcl⟩ := hacl q hq
        rw [hst']
        simp only [dmAddImage]
        by_cases hqf : q.2 = fid
        · rw [hqf, lookupA_updateA_self, ← hqf, hcl]
          exact ⟨_, rfl⟩
        · rw [lookupA_updateA_ne _ _ (fun hh => hqf hh.symm)]
          exact ⟨cl, hcl⟩
      obtain ⟨hA, hB, hC, hD⟩ := ih st' assoc fresh hnds' hndf
        (Nat.le_of_succ_le hlen) hsome' hfcl' hav hacl'
      refine ⟨?_, ?_, ?_, ?_⟩
      · intro key hkf hka
        rw [hA key hkf hka, hst']
        simp only [dmAddImage]
        exact lookupA_updateA_ne _ _ (fun hh => hka (l, fid) hfidav hh)
      · intro sid' hsid'
        simp only [List.map_cons, List.mem_cons, not_or] at hsid'
        rw [hB sid' hsid'.2, hst']
        simp only [dmAddImage]
        exact lookupA_updateA_ne _ _ (fun hh => hsid'.1 hh.symm)
      · intro key cl hcl
        by_cases hkey : key = fid
        · subst hkey
          have hcl0' : cl = cl0 := by rw [hcl] at hcl0; cases hcl0; rfl
          subst hcl0'
          have hlk : lookupA key st'.clusters =
              some { cl with samples := insert sid cl.samples } := by
            rw [hst']
            simp only [dmAddImage]
            rw [lookupA_updateA_self, hcl]
            rfl
          obtain ⟨cl', hcl', hsub⟩ := hC key _ hlk
          exact ⟨cl', hcl',
            Finset.Subset.trans (Finset.subset_insert sid cl.samples) hsub⟩
        · have hlk : lookupA key st'.clusters = some cl := by
            rw [hst']
            simp only [dmAddImage]
            rw [lookupA_updateA_ne _ _ (fun hh => hkey hh.symm)]
            exact hcl
          exact hC key cl hlk
      · intro q hq
        rcases List.mem_cons.mp hq with hq1 | hq2
        · subst hq1
          refine ⟨fid, s0, Or.inr hla, hs0, ?_, ?_⟩
          · rw [hB sid hsidrest, hst']
            simp only [dmAddImage]
            rw [lookupA_updateA_self, hs0]
            rfl
          · have hlk : lookupA fid st'.clusters =
                some { cl0 with samples := insert sid cl0.samples } := by
              rw [hst']
              simp only [dmAddImage]
              rw [lookupA_updateA_self, hcl0]
              rfl
            obtain ⟨cl', hcl', hsub⟩ := hC fid _ hlk
            exact ⟨cl', hcl', hsub (Finset.mem_insert_self sid cl0.samples)⟩
        · obtain ⟨f, s1, hcond, hs1, hR, hclR⟩ := hD q hq2
          refine ⟨f, s1, hcond, ?_, hR, hclR⟩
          have hqs : q.2 ≠ sid := by
            intro hh
            exact hsidrest (hh ▸ List.mem_map_of_mem Prod.snd hq2)
          rw [hst'] at hs1
          simp only [dmAddImage] at hs1
          rwa [lookupA_updateA_ne _ _ (fun hh => hqs hh.symm)] at hs1
    | none =>
      cases fresh with
      | nil => simp at hlen
      | cons f fresh' =>
        have hf0 : f ∈ f :: fresh' := by simp
        have hndf' : fresh'.Nodup := (List.nodup_cons.mp hndf).2
        have hfnot : f ∉ fresh' := (List.nodup_cons.mp hndf).1
        have hs0' : lookupA sid (create_cluster st f color).samples = some s0 := hs0
        simp only [hs0']
        set st2 := dmAddImage (create_cluster st f color) f sid with hst2
        have hclf : lookupA f (create_cluster st f color).clusters =
            some { color := color, samples := (∅ : Finset String) } := by
          simp [create_cluster, lookupA]
        have hsome' : ∀ q ∈ rest, (lookupA q.2 st2.samples).isSome = true := by
          intro q hq
          rw [hst2]
          simp only [dmAddImage, create_cluster]
          rw [lookupA_isSome_updateA]
          exact hsome q (by simp [hq])
        have hfcl' : ∀ f' ∈ fresh', lookupA f' st2.clusters = none := by
          intro f' hf'
          have hne : f ≠ f' := fun hh => hfnot (hh ▸ hf')
          rw [hst2]
          simp only [dmAddImage, create_cluster, lookupA]
          rw [lookupA_updateA_ne _ _ hne]
          simp only [lookupA, if_neg hne]
          exact hfcl f' (by simp [hf'])
        have hav' : ∀ f' ∈ fresh', ∀ q ∈ (l, f) :: assoc, q.2 ≠ f' := by
          intro f' hf' q hq
          rcases List.mem_cons.mp hq with hq1 | hq2
          · subst hq1
            intro hh
            exact hfnot (by simpa [← hh] using hf')
          · exact hav f' (by simp [hf']) q hq2
        have hacl' : ∀ q ∈ (l, f) :: assoc,
            ∃ cl, lookupA q.2 st2.clusters = some cl := by
          intro q hq
          rcases List.mem_cons.mp hq with hq1 | hq2
          · subst hq1
            rw [hst2]
            simp only [dmAddImage]
            rw [lookupA_updateA_self, hclf]
            exact ⟨_, rfl⟩
          · obtain ⟨cl, hcl⟩ := hacl q hq2
            have hne : q.2 ≠ f := hav f hf0 q hq2
            have hnf : ¬ f = q.2 := fun hh => hne hh.symm
            rw [hst2]
            simp only [dmAddImage, create_cluster, updateA, lookupA]
            rw [if_neg hnf, lookupA_updateA_ne _ _ hnf]
            exact ⟨cl, hcl⟩
        obtain ⟨hA, hB, hC, hD⟩ := ih st2 ((l, f) :: assoc) fresh' hnds' hndf'
          (Nat.le_of_succ_le_succ hlen) hsome' hfcl' hav' hacl'
        refine ⟨?_, ?_, ?_, ?_⟩
        · intro key hkf hka
          simp only [List.mem_cons, not_or] at hkf
          have hfk : ¬ f = key := fun hh => hkf.1 hh.symm
          have hka' : ∀ q ∈ (l, f) :: assoc, q.2 ≠ key := by
            intro q hq
            rcases List.mem_cons.mp hq with hq1 | hq2
            · subst hq1
              intro hh
              exact hkf.1 (by simpa using hh.symm)
            · exact hka q hq2
          rw [hA key hkf.2 hka', hst2]
          simp only [dmAddImage, create_cluster, updateA, lookupA]
          rw [if_neg hfk, lookupA_updateA_ne _ _ hfk]
        · intro sid' hsid'
          simp only [List.map_cons, List.mem_cons, not_or] at hsid'
          rw [hB sid' hsid'.2, hst2]
          simp only [dmAddImage, create_cluster]
          exact lookupA_updateA_ne _ _ (fun hh => hsid'.1 hh.symm)
        · intro key cl hcl
          have hkf : key ≠ f := by
            intro hh
            rw [hh, hfcl f hf0] at hcl
            cases hcl
          have hlk : lookupA key st2.clusters = some cl := by
            have hfk2 : ¬ f = key := fun hh => hkf hh.symm
            rw [hst2]
            simp only [dmAddImage, create_cluster, updateA, lookupA]
            rw [if_neg hfk2, lookupA_updateA_ne _ _ hfk2]
            exact hcl
          exact hC key cl hlk
        · intro q hq
          rcases List.mem_cons.mp hq with hq1 | hq2
          · subst hq1
            refine ⟨f, s0, Or.inl hf0, hs0, ?_, ?_⟩
            · rw [hB sid hsidrest, hst2]
              simp only [dmAddImage, create_cluster]
              rw [lookupA_updateA_self, hs0]
              rfl
            · have hlk : lookupA f st2.clusters =
                  some { color := color,
                         samples := insert sid (∅ : Finset String) } := by
                rw [hst2]
                simp only [dmAddImage]
                rw [lookupA_updateA_self, hclf]
                rfl
              obtain ⟨cl', hcl', hsub⟩ := hC f _ hlk
              exact ⟨cl', hcl', hsub (Finset.mem_insert_self sid ∅)⟩
          · obtain ⟨f'', s1, hcond, hs1, hR, hclR⟩ := hD q hq2
            have hqs : q.2 ≠ sid := by
              intro hh
              exact hsidrest (hh ▸ List.mem_map_of_mem Prod.snd hq2)
            have hs1' : lookupA q.2 st.samples = some s1 := by
              rw [hst2] at hs1
              simp only [dmAddImage, create_cluster] at hs1
              rwa [lookupA_updateA_ne _ _ (fun hh => hqs hh.symm)] at hs1
            refine ⟨f'', s1, ?_, hs1', hR, hclR⟩
            rcases hcond with hcf | hca
            · exact Or.inl (by simp [hcf])
            · simp only [lookupA] at hca
              by_cases hql : l = q.1
              · rw [if_pos hql] at hca
                cases hca
                exact Or.inl hf0
              · rw [if_neg hql] at hca
                exact Or.inr hca

theorem withF_map_fst (g : String → Option (List ℚ)) :
    ∀ l : List String, (∀ x ∈ l, (g x).isSome = true) →
      (l.filterMap (fun sid => (g sid).map (fun f => (sid, f)))).map
        (fun p => p.1) = l := by
  intro l
  induction l with
  | nil => intro _; rfl
  | cons x t ih =>
    intro h
    have hx := h x (by simp)
    cases hg : g x with
    | none => rw [hg] at hx; simp at hx
    | some v =>
      simp only [List.filterMap_cons, hg, Option.map_some', List.map_cons]
      rw [ih (fun y hy => h y (by simp [hy]))]

/-- Post-state of the delete-after-assign composition that ends
`split_cluster`, for any pair list whose ids enumerate the cluster's
members. -/
theorem split_cluster_post (color : String) (st : DM) (cid : String)
    (c : ClusterObj) (fresh : List String) (ps : List (Nat × String))
    (hst : Inv st)
    (hc : lookupA cid st.clusters = some c)
    (hpssnd : ps.map Prod.snd = c.samples.sort (· ≤ ·))
    (hpslen : ps.length ≤ fresh.length)
    (hfnd : fresh.Nodup)
    (hfcl : ∀ f ∈ fresh, lookupA f st.clusters = none)
    (hfs : ∀ f ∈ fresh, ∀ sid s, lookupA sid st.samples = some s →
      f ∉ s.cluster_ids)
    (hmem : ∀ sid ∈ c.samples, (lookupA sid st.samples).isSome = true) :
    lookupA cid
      (delete_cluster (assign_fold color st [] fresh ps) cid).clusters
      = none ∧
    (∀ sid s,
      lookupA sid
        (delete_cluster (assign_fold color st [] fresh ps) cid).samples
        = some s → cid ∉ s.cluster_ids) ∧
    (∀ sid ∈ c.samples, ∃ f s,
      f ∈ fresh ∧
      lookupA sid
        (delete_cluster (assign_fold color st [] fresh ps) cid).samples
        = some s ∧
      f ∈ s.cluster_ids ∧
      (∀ f' ∈ fresh, f' ∈ s.cluster_ids → f' = f) ∧
      ∃ cl, lookupA f
        (delete_cluster (assign_fold color st [] fresh ps) cid).clusters
        = some cl ∧ sid ∈ cl.samples) := by
  have hcidf : cid ∉ fresh := by
    intro hin
    rw [hfcl cid hin] at hc
    cases hc
  have hsortmem : ∀ sid, sid ∈ ps.map Prod.snd ↔ sid ∈ c.samples := by
    intro sid
    rw [hpssnd]
    exact Finset.mem_sort (· ≤ ·)
  have hnd : (ps.map Prod.snd).Nodup := by
    rw [hpssnd]
    exact Finset.sort_nodup (· ≤ ·) c.samples
  have hsome : ∀ p ∈ ps, (lookupA p.2 st.samples).isSome = true :=
    fun p hp =>
      hmem p.2 ((hsortmem p.2).mp (List.mem_map_of_mem Prod.snd hp))
  obtain ⟨hA, hB, hC, hD⟩ := assign_fold_spec color ps st [] fresh hnd hfnd
    hpslen hsome hfcl (fun f _ q hq => absurd hq (List.not_mem_nil q))
    (fun q hq => absurd hq (List.not_mem_nil q))
  have hR0c : lookupA cid (assign_fold color st [] fresh ps).clusters =
      some c := by
    rw [hA cid hcidf (fun q hq => absurd hq (List.not_mem_nil q))]
    exact hc
  simp only [delete_cluster, hR0c]
  refine ⟨lookupA_removeA_self cid _, ?_, ?_⟩
  · intro sid s hs
    rw [lookupA_mapMembers] at hs
    rcases Option.map_eq_some'.mp hs with ⟨s0, hs0, hfs0⟩
    by_cases hmemc : sid ∈ c.samples
    · rw [if_pos hmemc] at hfs0
      subst hfs0
      simp
    · rw [if_neg hmemc] at hfs0
      subst hfs0
      have hnotin : sid ∉ ps.map Prod.snd :=
        fun hin => hmemc ((hsortmem sid).mp hin)
      rw [hB sid hnotin] at hs0
      intro hcidin
      exact hmemc ((hst cid c hc sid s0 hs0).mpr hcidin)
  · intro sid hmemc
    have hin : sid ∈ ps.map Prod.snd := (hsortmem sid).mpr hmemc
    obtain ⟨p, hp, hpsid⟩ := List.mem_map.mp hin
    obtain ⟨f, s0, hcond, hs0, hR0s, cl, hclR0, hclmem⟩ := hD p hp
    rw [hpsid] at hs0 hR0s hclmem
    have hffresh : f ∈ fresh := by
      rcases hcond with h | h
      · exact h
      · cases h
    have hfcid : f ≠ cid := fun hh => hcidf (hh ▸ hffresh)
    refine ⟨f, ⟨(insert f s0.cluster_ids).erase cid⟩, hffresh, ?_, ?_, ?_, ?_⟩
    · rw [lookupA_mapMembers, hR0s]
      simp [hmemc]
    · exact Finset.mem_erase.mpr ⟨hfcid, Finset.mem_insert_self f _⟩
    · intro f' hf' hfin
      rcases Finset.mem_insert.mp (Finset.mem_erase.mp hfin).2 with h | h
      · exact h
      · exact absurd h (hfs f' hf' sid s0 hs0)
    · refine ⟨cl, ?_, hclmem⟩
      rw [lookupA_removeA_ne _ (fun hh => hfcid hh.symm)]
      exact hclR0

/-! ## Claim C6 -/

/-- C6: splitting an existing cluster with M members — features available
for every member, 1 ≤ n_sub ≤ M, and enough fresh uuids — retires the
original id entirely: afterwards the id is gone from the cluster table, no
sample carries it, and every former member carries exactly one of the newly
created cluster ids and is a member of that new cluster's sample set. -/
theorem split_cluster_retires_original (o : KmeansOracle)
    (reduceO : List (List ℚ) → List (List ℚ))
    (featureO : String → Option (List ℚ)) (fresh : List String)
    (color : String) (st : DM) (cid : String) (nSub : Nat) (c : ClusterObj)
    (hred : ∀ M, (reduceO M).length = M.length)
    (hst : Inv st)
    (hc : lookupA cid st.clusters = some c)
    (hn : 0 < nSub)
    (hM : nSub ≤ c.samples.card)
    (hfeat : ∀ sid ∈ c.samples, (featureO sid).isSome = true)
    (hmem : ∀ sid ∈ c.samples, (lookupA sid st.samples).isSome = true)
    (hflen : c.samples.card ≤ fresh.length)
    (hfnd : fresh.Nodup)
    (hfcl : ∀ f ∈ fresh, lookupA f st.clusters = none)
    (hfs : ∀ f ∈ fresh, ∀ sid s, lookupA sid st.samples = some s →
      f ∉ s.cluster_ids) :
    lookupA cid
      (dm_split_cluster o reduceO featureO fresh color st cid nSub).clusters
      = none ∧
    (∀ sid s,
      lookupA sid
        (dm_split_cluster o reduceO featureO fresh color st cid nSub).samples
        = some s → cid ∉ s.cluster_ids) ∧
    (∀ sid ∈ c.samples, ∃ f s,
      f ∈ fresh ∧
      lookupA sid
        (dm_split_cluster o reduceO featureO fresh color st cid nSub).samples
        = some s ∧
      f ∈ s.cluster_ids ∧
      (∀ f' ∈ fresh, f' ∈ s.cluster_ids → f' = f) ∧
      ∃ cl, lookupA f
        (dm_split_cluster o reduceO featureO fresh color st cid nSub).clusters
        = some cl ∧ sid ∈ cl.samples) := by
  have hguard : ¬ ((c.samples.sort (· ≤ ·)).length < nSub) := by
    rw [Finset.length_sort]
    omega
  have hids : ((c.samples.sort (· ≤ ·)).filterMap
      (fun sid => (featureO sid).map (fun f => (sid, f)))).map
      (fun p => p.1) = c.samples.sort (· ≤ ·) :=
    withF_map_fst featureO _
      (fun x hx => hfeat x ((Finset.mem_sort (· ≤ ·)).mp hx))
  have hwlen : ((c.samples.sort (· ≤ ·)).filterMap
      (fun sid => (featureO sid).map (fun f => (sid, f)))).length =
      (c.samples.sort (· ≤ ·)).length := by
    have h := congrArg List.length hids
    simpa using h
  have hfeatlen : (((c.samples.sort (· ≤ ·)).filterMap
      (fun sid => (featureO sid).map (fun f => (sid, f)))).map
      (fun p => p.2)).length = c.samples.card := by
    rw [List.length_map, hwlen, Finset.length_sort]
  have hnemp : ¬ ((((c.samples.sort (· ≤ ·)).filterMap
      (fun sid => (featureO sid).map (fun f => (sid, f)))).map
      (fun p => p.2)).isEmpty = true) := by
    rw [List.isEmpty_iff_length_eq_zero, hfeatlen]
    omega
  have hge : ¬ ((reduceO (((c.samples.sort (· ≤ ·)).filterMap
      (fun sid => (featureO sid).map (fun f => (sid, f)))).map
      (fun p => p.2))).length < nSub) := by
    rw [hred, hfeatlen]
    omega
  have hpssnd : ((o.labels (reduceO (((c.samples.sort (· ≤ ·)).filterMap
      (fun sid => (featureO sid).map (fun f => (sid, f)))).map
      (fun p => p.2))) nSub).zip
      (((c.samples.sort (· ≤ ·)).filterMap
      (fun sid => (featureO sid).map (fun f => (sid, f)))).map
      (fun p => p.1))).map Prod.snd = c.samples.sort (· ≤ ·) := by
    rw [List.map_snd_zip _ _ (by
      rw [o.labels_len, hred, hfeatlen, List.length_map, hwlen,
        Finset.length_sort]), hids]
  have hpslen : ((o.labels (reduceO (((c.samples.sort (· ≤ ·)).filterMap
      (fun sid => (featureO sid).map (fun f => (sid, f)))).map
      (fun p => p.2))) nSub).zip
      (((c.samples.sort (· ≤ ·)).filterMap
      (fun sid => (featureO sid).map (fun f => (sid, f)))).map
      (fun p => p.1))).length ≤ fresh.length := by
    rw [List.length_zip, o.labels_len, hred, hfeatlen, List.length_map,
      hwlen, Finset.length_sort]
    simpa using hflen
  simp only [dm_split_cluster, hc, if_neg hguard, if_neg hnemp,
    cluster_images, faiss_kmeans_train, if_neg hge]
  exact split_cluster_post color st cid c fresh _ hst hc hpssnd hpslen hfnd
    hfcl hfs hmem

/-- Witness for C6: the one-member cluster "c1" of the example state is
split into 1 sub-cluster with fresh id "n1". -/
theorem split_cluster_retires_original_witness :
    lookupA "c1" (dm_split_cluster trivialKmeans (fun M => M)
      (fun _ => some [(1 : ℚ)]) ["n1"] "#000000" dmExample "c1" 1).clusters
      = none ∧
    (∀ sid s,
      lookupA sid (dm_split_cluster trivialKmeans (fun M => M)
        (fun _ => some [(1 : ℚ)]) ["n1"] "#000000" dmExample "c1" 1).samples
        = some s → "c1" ∉ s.cluster_ids) ∧
    (∀ sid ∈ ({"s1"} : Finset String), ∃ f s,
      f ∈ ["n1"] ∧
      lookupA sid (dm_split_cluster trivialKmeans (fun M => M)
        (fun _ => some [(1 : ℚ)]) ["n1"] "#000000" dmExample "c1" 1).samples
        = some s ∧
      f ∈ s.cluster_ids ∧
      (∀ f' ∈ ["n1"], f' ∈ s.cluster_ids → f' = f) ∧
      ∃ cl, lookupA f (dm_split_cluster trivialKmeans (fun M => M)
        (fun _ => some [(1 : ℚ)]) ["n1"] "#000000" dmExample "c1" 1).clusters
        = some cl ∧ sid ∈ cl.samples) :=
  split_cluster_retires_original trivialKmeans (fun M => M)
    (fun _ => some [(1 : ℚ)]) ["n1"] "#000000" dmExample "c1" 1
    { color := "#ffffff", samples := {"s1"} }
    (fun _ => rfl) (Inv_of_InvCheck dmExample (by decide)) (by decide)
    (by decide) (by decide) (by decide) (by decide) (by decide) (by decide)
    (by decide)
    (by
      intro f hf sid s hs
      have hm := lookupA_mem hs
      simp only [dmExample, List.mem_singleton, Prod.mk.injEq] at hm
      obtain ⟨h1, h2⟩ := hm
      subst h2
      simp only [List.mem_singleton] at hf
      subst hf
      decide)

end Eidocell
